import Mathlib

/-!
Verification development for dynamic.io (a socket.io server subclass with
host-aware, dynamically created namespaces that delete themselves when idle).

The definitions below are a shallow embedding of src/index.js.  JavaScript
numbers are modelled by `JNum` (finite values as exact integers, plus the
three special values NaN and the two infinities); the operations defined on
`JNum` are exactly the ones the source uses (comparison, max, min, addition,
the falsiness test used by the `delay || 0` idiom).  JavaScript objects used
as string-keyed dictionaries are modelled by association lists when the code
iterates over them (`this.nsps`) and by update functions when it only does
point lookups (`this._namepaceNames`).  Setup callbacks are modelled as pure
functions from the namespace entity and the match result to the returned
JavaScript value; the only observation the source makes of that value is
whether it is exactly `false`.
-/

/-- JavaScript number values, with exact integers for the finite case.  The
source only ever combines integral millisecond quantities, so no rounding
behaviour of binary floating point is involved in any modelled operation. -/
inductive JNum : Type
  | nan : JNum
  | inf : JNum
  | ninf : JNum
  | num (x : ℤ) : JNum
  deriving DecidableEq, Repr

/-- JavaScript comparison a < b (false whenever either side is NaN). -/
def jlt : JNum → JNum → Bool
  | JNum.nan, _ => false
  | _, JNum.nan => false
  | JNum.inf, _ => false
  | JNum.ninf, JNum.ninf => false
  | JNum.ninf, _ => true
  | JNum.num _, JNum.inf => true
  | JNum.num _, JNum.ninf => false
  | JNum.num a, JNum.num b => decide (a < b)

/-- JavaScript comparison a <= b (false whenever either side is NaN). -/
def jle : JNum → JNum → Bool
  | JNum.nan, _ => false
  | _, JNum.nan => false
  | JNum.ninf, _ => true
  | _, JNum.inf => true
  | JNum.inf, _ => false
  | JNum.num _, JNum.ninf => false
  | JNum.num a, JNum.num b => decide (a ≤ b)

/-- Math.max on two values (NaN absorbing). -/
def jmax : JNum → JNum → JNum
  | JNum.nan, _ => JNum.nan
  | _, JNum.nan => JNum.nan
  | JNum.inf, _ => JNum.inf
  | _, JNum.inf => JNum.inf
  | JNum.ninf, b => b
  | a, JNum.ninf => a
  | JNum.num a, JNum.num b => JNum.num (max a b)

/-- Math.min on two values (NaN absorbing). -/
def jmin : JNum → JNum → JNum
  | JNum.nan, _ => JNum.nan
  | _, JNum.nan => JNum.nan
  | JNum.ninf, _ => JNum.ninf
  | _, JNum.ninf => JNum.ninf
  | JNum.inf, b => b
  | a, JNum.inf => a
  | JNum.num a, JNum.num b => JNum.num (min a b)

/-- JavaScript addition. -/
def jadd : JNum → JNum → JNum
  | JNum.nan, _ => JNum.nan
  | _, JNum.nan => JNum.nan
  | JNum.inf, JNum.ninf => JNum.nan
  | JNum.ninf, JNum.inf => JNum.nan
  | JNum.inf, _ => JNum.inf
  | _, JNum.inf => JNum.inf
  | JNum.ninf, _ => JNum.ninf
  | _, JNum.ninf => JNum.ninf
  | JNum.num a, JNum.num b => JNum.num (a + b)

/-- JavaScript negation. -/
def jneg : JNum → JNum
  | JNum.nan => JNum.nan
  | JNum.inf => JNum.ninf
  | JNum.ninf => JNum.inf
  | JNum.num x => JNum.num (-x)

/-- JavaScript subtraction a - b. -/
def jsub (a b : JNum) : JNum := jadd a (jneg b)

/-- The expression (delay || 0): a falsy number (NaN or 0) is replaced by 0. -/
def jor0 : JNum → JNum
  | JNum.nan => JNum.num 0
  | JNum.num x => if x = 0 then JNum.num 0 else JNum.num x
  | d => d

/-- Point lookup in a string-keyed association list (a JavaScript object whose
entries the code iterates over in insertion order). -/
def lookupKey {α : Type} : List (String × α) → String → Option α
  | [], _ => none
  | (k, v) :: rest, key => if k = key then some v else lookupKey rest key

/-- Assignment obj[key] = v: an existing entry keeps its position, a new key
is appended (JavaScript string-key insertion order). -/
def setKey {α : Type} : List (String × α) → String → α → List (String × α)
  | [], key, v => [(key, v)]
  | (k, w) :: rest, key, v =>
    if k = key then (key, v) :: rest else (k, w) :: setKey rest key v

/-- The statement delete obj[key]. -/
def deleteKey {α : Type} : List (String × α) → String → List (String × α)
  | [], _ => []
  | (k, w) :: rest, key =>
    if k = key then rest else (k, w) :: deleteKey rest key

theorem lookupKey_setKey_self {α : Type} (l : List (String × α)) (k : String) (v : α) :
    lookupKey (setKey l k v) k = some v := by
  induction l with
  | nil => simp [setKey, lookupKey]
  | cons hd tl ih =>
    obtain ⟨k', v'⟩ := hd
    by_cases h : k' = k <;> simp [setKey, lookupKey, h, ih]

theorem lookupKey_setKey_other {α : Type} (l : List (String × α)) (k k' : String) (v : α)
    (h : k' ≠ k) : lookupKey (setKey l k v) k' = lookupKey l k' := by
  induction l with
  | nil => simp [setKey, lookupKey, Ne.symm h]
  | cons hd tl ih =>
    obtain ⟨k₀, v₀⟩ := hd
    by_cases h0 : k₀ = k
    · subst h0
      simp [setKey, lookupKey, Ne.symm h]
    · simp only [setKey, h0, if_false, lookupKey]
      by_cases h1 : k₀ = k' <;> simp [h1, ih]

theorem setKey_absent {α : Type} (l : List (String × α)) (k : String) (v : α)
    (h : lookupKey l k = none) : setKey l k v = l ++ [(k, v)] := by
  induction l with
  | nil => simp [setKey]
  | cons hd tl ih =>
    obtain ⟨k₀, v₀⟩ := hd
    by_cases h0 : k₀ = k
    · simp [lookupKey, h0] at h
    · simp [lookupKey, h0] at h
      simp [setKey, h0, ih h]

theorem deleteKey_append_self {α : Type} (l : List (String × α)) (k : String) (v : α)
    (h : lookupKey l k = none) : deleteKey (l ++ [(k, v)]) k = l := by
  induction l with
  | nil => simp [deleteKey]
  | cons hd tl ih =>
    obtain ⟨k₀, v₀⟩ := hd
    by_cases h0 : k₀ = k
    · simp [lookupKey, h0] at h
    · simp [lookupKey, h0] at h
      simp [deleteKey, h0, ih h]

theorem setKey_setKey {α : Type} (l : List (String × α)) (k : String) (v v' : α) :
    setKey (setKey l k v) k v' = setKey l k v' := by
  induction l with
  | nil => simp [setKey]
  | cons hd tl ih =>
    obtain ⟨k₀, v₀⟩ := hd
    by_cases h0 : k₀ = k <;> simp [setKey, h0, ih]

/-- Result of a successful pattern match, as the source builds it for exact
matches and as RegExp.exec reports it: the matched text, its start offset and
the input string. -/
structure MatchRes : Type where
  matched : String
  index : Nat
  input : String
  deriving DecidableEq, Repr

/-- A stored pattern after makePattern: either an exact string or a regular
expression.  Regular expressions are modelled abstractly by their exec
behaviour, a function from the candidate string to the optional match. -/
inductive Pat : Type
  | str (s : String) : Pat
  | re (f : String → Option MatchRes) : Pat

/-- Argument accepted by makePattern: the literal true, a string, or a
regular expression object. -/
inductive PatArg : Type
  | tru : PatArg
  | str (s : String) : PatArg
  | re (f : String → Option MatchRes) : PatArg

/-- The RegExp new RegExp(".^"), which matches nothing. -/
def reNever : String → Option MatchRes := fun _ => none

/-- The RegExp new RegExp(".*"), which matches every string whole at offset
zero. -/
def reAll : String → Option MatchRes := fun s => some ⟨s, 0, s⟩

/-- makePattern from src/index.js: true becomes a never-matching RegExp, the
string "*" becomes a match-everything RegExp, a RegExp is kept, any other
string stays an exact string pattern. -/
def makePattern : PatArg → Pat
  | PatArg.tru => Pat.re reNever
  | PatArg.str s => if s = "*" then Pat.re reAll else Pat.str s
  | PatArg.re f => Pat.re f

/-- matchPattern from src/index.js: RegExp exec for regular expressions,
equality for strings (building the same match object the source builds). -/
def matchPattern : Pat → String → Option MatchRes
  | Pat.re f, s => f s
  | Pat.str p, s => if p = s then some ⟨s, 0, s⟩ else none

/-- The JavaScript value a setup callback returns, as far as the source
inspects it: the source only tests strict equality with false, so the model
keeps the boolean false apart from the other falsy and truthy values. -/
inductive JSRet : Type
  | jfalse : JSRet
  | jtrue : JSRet
  | jundef : JSRet
  | jzero : JSRet
  | jother : JSRet
  deriving DecidableEq, Repr

/-- fullNamespaceName from src/index.js: the fully qualified identity is the
name alone for the main (null) host, and "//" + host + name otherwise. -/
def fullNamespaceName (name : String) (host : Option String) : String :=
  match host with
  | none => name
  | some h => "//" ++ h ++ name

/-- A namespace entity (DynamicNamespace), restricted to the fields the
claims concern: identity, setup sentinel (0 not started, -1 in progress,
1 done), retirement duration, member sockets (by identifier; the underlying
socket.io namespace keeps them in a list), the expiration timestamp and the
attached connect handlers (by identifier).  The random starting id counter
and the room bookkeeping of the base class are not modelled. -/
structure DynamicNamespace : Type where
  name : String
  host : Option String
  setupDone : ℤ
  retirement : JNum
  sockets : List Nat
  _expirationTime : JNum
  connectHandlers : List Nat
  deriving DecidableEq, Repr

/-- The DynamicNamespace constructor: setup not started, retirement Infinity,
no sockets, expiration Infinity. -/
def newNamespace (name : String) (host : Option String) : DynamicNamespace :=
  { name := name
    host := host
    setupDone := 0
    retirement := JNum.inf
    sockets := []
    _expirationTime := JNum.inf
    connectHandlers := [] }

/-- A setup callback: receives the namespace entity and the match result and
returns a JavaScript value.  The source only reads the returned value, so the
model treats callbacks as pure deciders; user initialisation effects on the
entity are outside the modelled state. -/
abbrev SetupFn : Type := DynamicNamespace → MatchRes → JSRet

/-- DynamicNamespace.prototype.add: force the expiration time back to
Infinity, then the base socket.io add pushes the new socket onto the list
(and invokes the completion callback, which the client model handles). -/
def DynamicNamespace.add (nsp : DynamicNamespace) (sid : Nat) : DynamicNamespace :=
  let nsp := { nsp with _expirationTime := JNum.inf }
  { nsp with sockets := nsp.sockets ++ [sid] }

/-- DynamicNamespace.prototype.remove: the base socket.io remove deletes the
socket from the list (first occurrence, if present); if no sockets remain the
expiration time becomes now + retirement.  The accompanying
requestCleanupAfter call is part of the scheduler model below. -/
def DynamicNamespace.remove (nsp : DynamicNamespace) (sid : Nat) (now : ℤ) :
    DynamicNamespace :=
  let nsp := { nsp with sockets := nsp.sockets.erase sid }
  if nsp.sockets.length = 0 then
    { nsp with _expirationTime := jadd (JNum.num now) nsp.retirement }
  else nsp

/-- DynamicNamespace.prototype._expiration: Infinity while any socket is a
member, otherwise the recorded expiration time. -/
def DynamicNamespace._expiration (nsp : DynamicNamespace) : JNum :=
  if nsp.sockets.length ≠ 0 then JNum.inf else nsp._expirationTime

/-- One socket membership operation on an entity: an add, or a remove
happening at an absolute time now. -/
inductive NsOp : Type
  | add (sid : Nat) : NsOp
  | remove (sid : Nat) (now : ℤ) : NsOp
  deriving DecidableEq, Repr

/-- Apply one membership operation. -/
def applyNsOp (nsp : DynamicNamespace) : NsOp → DynamicNamespace
  | NsOp.add sid => nsp.add sid
  | NsOp.remove sid now => nsp.remove sid now

/-- Apply a sequence of membership operations in order. -/
def applyNsOps (nsp : DynamicNamespace) (ops : List NsOp) : DynamicNamespace :=
  ops.foldl applyNsOp nsp

/-- One entry of the _namepacePatterns list: a compiled pattern and its setup
callback. -/
structure PatternEntry : Type where
  pattern : Pat
  setup : SetupFn

/-- The DynamicServer state the claims concern: the single cleanup timer
handle and its recorded wake time, the exact-name setup registrations, the
ordered pattern registrations, the namespace registry and the default
retirement for automatically created namespaces.  The timer handle is the
identifier of the pending setTimeout, if any. -/
structure DynamicServer : Type where
  _cleanupTimer : Option Nat
  _cleanupTime : Option JNum
  _namepaceNames : String → Option SetupFn
  _namepacePatterns : List PatternEntry
  nsps : List (String × DynamicNamespace)
  _defaultRetirement : JNum

/-- Update of the exact-name registration table at one key. -/
def updMap (m : String → Option SetupFn) (k : String) (v : SetupFn) :
    String → Option SetupFn :=
  fun x => if x = k then some v else m x

/-- The pattern scan of initializeNamespace, which walks _namepacePatterns
from the last registered entry down to the first; this definition receives
the already reversed list. -/
def scanPatternsRev : List PatternEntry → String → Option (SetupFn × MatchRes)
  | [], _ => none
  | e :: rest, fullname =>
    match matchPattern e.pattern fullname with
    | some m => some (e.setup, m)
    | none => scanPatternsRev rest fullname

/-- The registration lookup at the top of initializeNamespace: an exact-name
registration is preferred (with the synthetic whole-string match object the
source builds), otherwise the patterns are scanned from the most recently
registered one backwards. -/
def resolveSetup (s : DynamicServer) (fullname : String) : Option (SetupFn × MatchRes) :=
  match s._namepaceNames fullname with
  | some setup => some (setup, ⟨fullname, 0, fullname⟩)
  | none => scanPatternsRev s._namepacePatterns.reverse fullname

/-- The entity as initializeNamespace constructs it before calling setup:
freshly constructed, with the default retirement applied when the creation is
automatic. -/
def createdEntity (s : DynamicServer) (name : String) (host : Option String)
    (auto : Bool) : DynamicNamespace :=
  let nsp := newNamespace name host
  if auto then { nsp with retirement := s._defaultRetirement } else nsp

/-- The log of setup callback invocations an operation performs: the fully
qualified identity the callback ran for, with the value it returned. -/
abbrev Log : Type := List (String × JSRet)

/-- DynamicServer.prototype.initializeNamespace.  Resolves the setup
registration for the fully qualified identity (exact name first, then the
pattern list from the most recent entry backwards); an automatic request with
no registration yields null.  Otherwise the entity is constructed (with the
default retirement when automatic), registered, and the setup callback, if
any, runs with the sentinel at -1; a callback returning exactly false undoes
the registration and yields null, anything else marks setup done.  Returns
the result, the new server state, and the invocation log. -/
def DynamicServer.initializeNamespace (s : DynamicServer) (name : String)
    (host : Option String) (auto : Bool) :
    Option DynamicNamespace × DynamicServer × Log :=
  let fullname := fullNamespaceName name host
  let found := resolveSetup s fullname
  if auto ∧ found.isNone then (none, s, [])
  else
    let nsp := createdEntity s name host auto
    let s1 := { s with nsps := setKey s.nsps fullname nsp }
    match found with
    | none => (some nsp, s1, [])
    | some (setup, m) =>
      let nspIP := { nsp with setupDone := -1 }
      let s2 := { s1 with nsps := setKey s1.nsps fullname nspIP }
      let r := setup nspIP m
      if r = JSRet.jfalse then
        (none, { s2 with nsps := deleteKey s2.nsps fullname }, [(fullname, r)])
      else
        let nspDone := { nspIP with setupDone := 1 }
        (some nspDone, { s2 with nsps := setKey s2.nsps fullname nspDone },
          [(fullname, r)])

/-- The retroactive loop of setupNamespace over the registry entries, in
insertion order: every entity whose setup sentinel is 0 and whose key matches
the new pattern runs the new callback (with the sentinel at -1 during the
call); a callback returning exactly false puts the sentinel back to 0,
anything else sets it to 1. -/
def setupLoop (pattern : Pat) (fn : SetupFn) :
    List (String × DynamicNamespace) → List (String × DynamicNamespace) × Log
  | [] => ([], [])
  | (j, nsp) :: rest =>
    let done := setupLoop pattern fn rest
    if nsp.setupDone = 0 then
      match matchPattern pattern j with
      | some m =>
        let r := fn { nsp with setupDone := -1 } m
        let nsp2 := { nsp with setupDone := if r = JSRet.jfalse then 0 else 1 }
        ((j, nsp2) :: done.1, (j, r) :: done.2)
      | none => ((j, nsp) :: done.1, done.2)
    else ((j, nsp) :: done.1, done.2)

/-- DynamicServer.prototype.setupNamespace: compile the pattern, store the
registration (pattern registrations are appended to the ordered list, exact
names go into the name table), then immediately run the retroactive loop over
the existing registry. -/
def DynamicServer.setupNamespace (s : DynamicServer) (nameArg : PatArg)
    (fn : SetupFn) : DynamicServer × Log :=
  let pattern := makePattern nameArg
  let s1 :=
    match pattern with
    | Pat.re _ =>
      { s with _namepacePatterns := s._namepacePatterns ++ [PatternEntry.mk pattern fn] }
    | Pat.str n => { s with _namepaceNames := updMap s._namepaceNames n fn }
  let looped := setupLoop pattern fn s1.nsps
  ({ s1 with nsps := looped.1 }, looped.2)

/-- The fn argument of DynamicServer.prototype.of after the JavaScript
argument shuffling: absent, the literal true (a request for an automatically
created namespace), or a connect callback. -/
inductive OfFn : Type
  | noFn : OfFn
  | isTrue : OfFn
  | handler (h : Nat) : OfFn
  deriving DecidableEq, Repr

/-- The test of the regular expression /^\//, true exactly when the string
starts with a slash. -/
def startsSlash (s : String) : Bool :=
  match s.data with
  | '/' :: _ => true
  | _ => false

/-- Attaching a connect handler: this.nsps[fullname].on("connect", fn) when
fn is a function, otherwise nothing. -/
def attachHandler (s : DynamicServer) (fullname : String) (fn : OfFn) :
    DynamicServer :=
  match fn with
  | OfFn.handler h =>
    match lookupKey s.nsps fullname with
    | some nsp =>
      let nsp2 := { nsp with connectHandlers := nsp.connectHandlers ++ [h] }
      { s with nsps := setKey s.nsps fullname nsp2 }
    | none => s
  | _ => s

/-- DynamicServer.prototype.of: prepend a leading slash if the name lacks
one, build the fully qualified identity, initialize the namespace when it is
not yet registered (automatically exactly when fn is the literal true),
return undefined if initialization refused, otherwise attach a connect
handler when fn is a function and return the registered entity. -/
def DynamicServer.of (s : DynamicServer) (name : String) (host : Option String)
    (fn : OfFn) : Option DynamicNamespace × DynamicServer × Log :=
  let name1 := if startsSlash name then name else "/" ++ name
  let fullname := fullNamespaceName name1 host
  match lookupKey s.nsps fullname with
  | none =>
    let done := s.initializeNamespace name1 host (fn = OfFn.isTrue)
    match done.1 with
    | none => (none, done.2.1, done.2.2)
    | some _ =>
      let s2 := attachHandler done.2.1 fullname fn
      (lookupKey s2.nsps fullname, s2, done.2.2)
  | some _ =>
    let s2 := attachHandler s fullname fn
    (lookupKey s2.nsps fullname, s2, [])

/-- A registry-level operation: a setupNamespace call or an of call. -/
inductive SrvOp : Type
  | setup (nameArg : PatArg) (fn : SetupFn) : SrvOp
  | ofOp (name : String) (host : Option String) (fn : OfFn) : SrvOp

/-- Run one registry operation, keeping the server state and the invocation
log. -/
def runOp (s : DynamicServer) : SrvOp → DynamicServer × Log
  | SrvOp.setup nameArg fn => s.setupNamespace nameArg fn
  | SrvOp.ofOp name host fn =>
    let done := s.of name host fn
    (done.2.1, done.2.2)

/-- Run a sequence of registry operations, concatenating the invocation
logs. -/
def runOps (s : DynamicServer) (ops : List SrvOp) : DynamicServer × Log :=
  ops.foldl (fun acc op =>
    let done := runOp acc.1 op
    (done.1, acc.2 ++ done.2)) (s, [])

/-- The server together with the runtime timer queue: the identifiers of the
setTimeout timers currently pending for this server, and a counter supplying
fresh identifiers.  Every timer the source creates runs the same cleanup
callback, so the queue stores identifiers only; the moment a timer fires is a
nondeterministic event of the model. -/
structure World : Type where
  server : DynamicServer
  pendingTimers : List Nat
  nextTimerId : Nat

/-- DynamicServer.prototype.requestCleanupAfter.  The delay is defaulted with
(delay || 0) and clamped by Math.max(0, _); a value not below Infinity
returns at once.  If a timer is pending and the new absolute cleanup time
is strictly earlier than the recorded one, the pending timer is cleared.
The fire delay is then padded by Math.max(1, Math.min(delay, 5000)) to batch
near-simultaneous expirations (the padded value only influences when the
timer fires, which the model keeps nondeterministic).  Finally, if no timer
is pending, a fresh one is scheduled and the cleanup time recorded. -/
def requestCleanupAfter (w : World) (delay : JNum) (now : ℤ) : World :=
  let d := jmax (JNum.num 0) (jor0 delay)
  if jlt d JNum.inf = false then w
  else
    let cleanupTime := jadd d (JNum.num now)
    let w1 :=
      match w.server._cleanupTimer with
      | some h =>
        if jlt cleanupTime ((w.server._cleanupTime).getD (JNum.num 0)) then
          { w with
              server := { w.server with _cleanupTimer := none }
              pendingTimers := w.pendingTimers.erase h }
        else w
      | none => w
    let _pad := jadd d (jmax (JNum.num 1) (jmin d (JNum.num 5000)))
    match w1.server._cleanupTimer with
    | none =>
      { w1 with
          server := { w1.server with
              _cleanupTimer := some w1.nextTimerId
              _cleanupTime := some cleanupTime }
          pendingTimers := w1.pendingTimers ++ [w1.nextTimerId]
          nextTimerId := w1.nextTimerId + 1 }
    | some _ => w1

/-- One step of the sweep loop of cleanupExpiredNamespaces: an entity whose
expiration has passed is evicted (its expire callbacks fire and it leaves the
registry), otherwise it is kept and the earliest future expiration is
tracked. -/
def sweepStep (now : ℤ) (acc : List (String × DynamicNamespace) × JNum)
    (e : String × DynamicNamespace) : List (String × DynamicNamespace) × JNum :=
  let expiration := e.2._expiration
  if jle expiration (JNum.num now) then acc
  else (acc.1 ++ [e], jmin acc.2 expiration)

/-- DynamicServer.prototype.cleanupExpiredNamespaces: sweep every registry
entry, evicting the expired ones and recording the earliest unexpired
expiration (starting from Infinity), then request a cleanup that much after
now. -/
def cleanupExpiredNamespaces (w : World) (now : ℤ) : World :=
  let swept := w.server.nsps.foldl (sweepStep now) ([], JNum.inf)
  let w1 := { w with server := { w.server with nsps := swept.1 } }
  requestCleanupAfter w1 (jsub swept.2 (JNum.num now)) now

/-- A pending timer with identifier h fires at time now: the callback first
nulls the handle and the recorded time, then runs the sweep.  Firing an
identifier that is not pending does nothing. -/
def fireTimer (w : World) (h : Nat) (now : ℤ) : World :=
  if h ∈ w.pendingTimers then
    cleanupExpiredNamespaces
      { w with
          server := { w.server with _cleanupTimer := none, _cleanupTime := none }
          pendingTimers := w.pendingTimers.erase h }
      now
  else w

/-- A scheduler-level event: a requestCleanupAfter call, or a pending timer
firing. -/
inductive SchedEv : Type
  | req (delay : JNum) (now : ℤ) : SchedEv
  | fire (h : Nat) (now : ℤ) : SchedEv

/-- Apply one scheduler event. -/
def schedStep (w : World) : SchedEv → World
  | SchedEv.req delay now => requestCleanupAfter w delay now
  | SchedEv.fire h now => fireTimer w h now

/-- The scheduler invariant: the runtime timer queue holds exactly the timer
the server remembers in _cleanupTimer (so never more than one), and every
remembered handle is below the fresh-identifier counter. -/
def SchedInv (w : World) : Prop :=
  w.pendingTimers = (match w.server._cleanupTimer with
    | some h => [h]
    | none => []) ∧
  (∀ h, w.server._cleanupTimer = some h → h < w.nextTimerId)

/-- An error packet sent back to a client: packet type (4 is the ERROR type
of the socket.io parser), the namespace named in the packet, and the payload
text. -/
structure Packet : Type where
  ptype : Nat
  nsp : String
  data : String
  deriving DecidableEq, Repr

/-- Client connection state (DynamicClient): the namespaces the connection
has joined, in the order the memberships were established; the FIFO buffer
of namespace names whose join is deferred until the root join completes; and
the packets sent to the client. -/
structure DynamicClient : Type where
  nsps : List String
  connectBuffer : List String
  packets : List Packet
  deriving DecidableEq, Repr

/-- A freshly connected client: nothing joined, nothing buffered. -/
def initClient : DynamicClient :=
  { nsps := [], connectBuffer := [], packets := [] }

/-- One replayed connect call from the root join completion callback.  At
that moment the root namespace is joined, so a replayed call never buffers
again and never reaches the replay branch; it either sends the error packet
or establishes the membership (lemma connect_after_root below shows this
equals DynamicClient.connect in that situation).  The oracle ofok abstracts
this.server.of(name, host, true): with the registrations fixed and setup
callbacks pure, whether of yields a namespace is a function of the name. -/
def replayStep (ofok : String → Bool) (c : DynamicClient) (name : String) :
    DynamicClient :=
  if ofok name = false then
    { c with packets := c.packets ++ [⟨4, name, "Invalid namespace"⟩] }
  else { c with nsps := c.nsps ++ [name] }

/-- DynamicClient.prototype.connect.  The namespace is looked up or created
first; a refusal sends the Invalid namespace error packet and nothing else.
A non-root join before the root join has completed is appended to the
connect buffer.  Otherwise the membership is established, and completing the
root join replays the whole buffer through connect in FIFO order and then
clears it. -/
def DynamicClient.connect (ofok : String → Bool) (c : DynamicClient)
    (name : String) : DynamicClient :=
  if ofok name = false then
    { c with packets := c.packets ++ [⟨4, name, "Invalid namespace"⟩] }
  else if name ≠ "/" ∧ c.nsps.contains "/" = false then
    { c with connectBuffer := c.connectBuffer ++ [name] }
  else
    let c1 := { c with nsps := c.nsps ++ [name] }
    if name = "/" ∧ c1.connectBuffer ≠ [] then
      { c1.connectBuffer.foldl (replayStep ofok) c1 with connectBuffer := [] }
    else c1

/-- Justification for modelling the replayed calls by replayStep: once the
root namespace is joined, connect on a non-root name coincides with
replayStep (it can neither buffer nor trigger a replay). -/
theorem connect_after_root (ofok : String → Bool) (c : DynamicClient)
    (name : String) (hroot : c.nsps.contains "/" = true) (hname : name ≠ "/") :
    DynamicClient.connect ofok c name = replayStep ofok c name := by
  unfold DynamicClient.connect replayStep
  by_cases hok : ofok name = false
  · simp [hok]
  · have hmem : "/" ∈ c.nsps := by simpa using hroot
    simp [hok, hroot, hname, hmem]

theorem applyNsOp_retirement (nsp : DynamicNamespace) (op : NsOp) :
    (applyNsOp nsp op).retirement = nsp.retirement := by
  cases op with
  | add sid => rfl
  | remove sid now =>
    simp only [applyNsOp, DynamicNamespace.remove]
    split <;> rfl

theorem applyNsOps_retirement (ops : List NsOp) (e : DynamicNamespace) :
    (applyNsOps e ops).retirement = e.retirement := by
  induction ops generalizing e with
  | nil => rfl
  | cons op rest ih =>
    show (applyNsOps (applyNsOp e op) rest).retirement = e.retirement
    rw [ih, applyNsOp_retirement]

theorem applyNsOp_expiration_iff (nsp : DynamicNamespace) (r : ℤ)
    (h : nsp.retirement = JNum.num r) (op : NsOp) :
    ((applyNsOp nsp op)._expiration = JNum.inf ↔
      0 < (applyNsOp nsp op).sockets.length) := by
  cases op with
  | add sid =>
    simp [applyNsOp, DynamicNamespace.add, DynamicNamespace._expiration]
  | remove sid now =>
    simp only [applyNsOp, DynamicNamespace.remove]
    by_cases hlen : (nsp.sockets.erase sid).length = 0
    · simp [hlen, DynamicNamespace._expiration, h, jadd]
    · simp [hlen, DynamicNamespace._expiration, Nat.pos_of_ne_zero hlen]

/-- Claim C1 as stated is refuted by an entity with the constructor default
retirement of Infinity: after adding one socket and removing it at time 5 the
member count is 0, yet the effective expiration is 5 + Infinity = Infinity,
so the claimed equivalence fails after that remove operation. -/
theorem c1_counterexample :
    ¬ (((applyNsOps (newNamespace "/x" none) [NsOp.add 1, NsOp.remove 1 5])._expiration
          = JNum.inf) ↔
        0 < (applyNsOps (newNamespace "/x" none)
          [NsOp.add 1, NsOp.remove 1 5]).sockets.length) := by
  decide

/-- Claim C1, amended: provided the entity has a finite retirement duration
(as automatically created namespaces do; the constructor default is
Infinity), after every operation of every add and remove sequence the
effective expiration returned by _expiration is Infinity exactly when the
member socket count is positive. -/
theorem c1_expiration_iff_members (e : DynamicNamespace) (r : ℤ)
    (h : e.retirement = JNum.num r) (ops : List NsOp) (hne : ops ≠ []) :
    ((applyNsOps e ops)._expiration = JNum.inf ↔
      0 < (applyNsOps e ops).sockets.length) := by
  obtain ⟨l, op, rfl⟩ : ∃ l op, ops = l ++ [op] := by
    rcases List.eq_nil_or_concat ops with h0 | ⟨l, op, h0⟩
    · exact absurd h0 hne
    · exact ⟨l, op, by simpa [List.concat_eq_append] using h0⟩
  have hr : (applyNsOps e l).retirement = JNum.num r := by
    rw [applyNsOps_retirement]; exact h
  have hsplit : applyNsOps e (l ++ [op]) = applyNsOp (applyNsOps e l) op := by
    simp [applyNsOps, List.foldl_append]
  rw [hsplit]
  exact applyNsOp_expiration_iff _ r hr op

/-- The entity used to instantiate the amended claim C1: an automatically
created namespace with the default retirement of 10000 milliseconds. -/
def autoEntity : DynamicNamespace :=
  { newNamespace "/x" none with retirement := JNum.num 10000 }

/-- Witness instantiating c1_expiration_iff_members on a concrete entity and
operation sequence. -/
theorem c1_witness :
    ((applyNsOps autoEntity [NsOp.add 1, NsOp.remove 1 5])._expiration = JNum.inf ↔
      0 < (applyNsOps autoEntity [NsOp.add 1, NsOp.remove 1 5]).sockets.length) :=
  c1_expiration_iff_members autoEntity 10000 rfl _ (by decide)

/-- A server with no registrations and an empty registry, default options
(retirement 10000 milliseconds). -/
def emptyServer : DynamicServer :=
  { _cleanupTimer := none
    _cleanupTime := none
    _namepaceNames := fun _ => none
    _namepacePatterns := []
    nsps := []
    _defaultRetirement := JNum.num 10000 }

/-- The empty server together with an empty timer queue. -/
def initialWorld : World :=
  { server := emptyServer, pendingTimers := [], nextTimerId := 0 }

/-- An infinite requested delay is ignored: the guard (delay < Infinity)
fails and requestCleanupAfter returns the world unchanged. -/
theorem requestCleanupAfter_inf (w : World) (now : ℤ) :
    requestCleanupAfter w JNum.inf now = w := rfl

/-- requestCleanupAfter only reads the delay through
Math.max(0, delay || 0), so any delay that coercion sends to 0 acts exactly
like a zero delay. -/
theorem requestCleanupAfter_coerced (w : World) (now : ℤ) (d : JNum)
    (h : jmax (JNum.num 0) (jor0 d) = JNum.num 0) :
    requestCleanupAfter w d now = requestCleanupAfter w (JNum.num 0) now := by
  unfold requestCleanupAfter
  rw [h]
  rfl

/-- Claim C9 as stated is refuted: a negative delay of -1 and a NaN delay
are not ignored on a server with no pending timer, both leave a scheduled
timer behind (the coercion delay || 0 and the clamp Math.max(0, delay) turn
them into an immediate cleanup). -/
theorem c9_counterexample :
    (requestCleanupAfter initialWorld (JNum.num (-1)) 0).server._cleanupTimer.isSome
        = true ∧
    (requestCleanupAfter initialWorld JNum.nan 0).server._cleanupTimer.isSome = true ∧
    initialWorld.server._cleanupTimer.isSome = false := by
  decide

/-- Claim C9, amended: only a delay of positive Infinity is silently ignored
(no timer scheduled, pending timer and recorded wake time unchanged); a NaN,
negative-Infinity or negative delay is coerced to 0 and behaves exactly like
a requestCleanupAfter call with delay 0, which does schedule a timer when
none is pending. -/
theorem c9_delay_guards :
    (∀ (w : World) (now : ℤ), requestCleanupAfter w JNum.inf now = w) ∧
    (∀ (w : World) (now : ℤ) (d : JNum),
      d = JNum.nan ∨ d = JNum.ninf ∨ (∃ x : ℤ, x < 0 ∧ d = JNum.num x) →
      requestCleanupAfter w d now = requestCleanupAfter w (JNum.num 0) now) := by
  refine ⟨fun w now => requestCleanupAfter_inf w now, fun w now d hd => ?_⟩
  apply requestCleanupAfter_coerced
  rcases hd with rfl | rfl | ⟨x, hx, rfl⟩
  · rfl
  · rfl
  · have hx0 : ¬ x = 0 := by omega
    have hmax : max (0 : ℤ) x = 0 := max_eq_left (le_of_lt hx)
    simp [jor0, hx0, jmax, hmax]

/-- Witness instantiating c9_delay_guards at an infinite and at a negative
concrete delay. -/
theorem c9_witness :
    requestCleanupAfter initialWorld JNum.inf 0 = initialWorld ∧
    requestCleanupAfter initialWorld (JNum.num (-2)) 0 =
      requestCleanupAfter initialWorld (JNum.num 0) 0 :=
  ⟨c9_delay_guards.1 initialWorld 0,
   c9_delay_guards.2 initialWorld 0 (JNum.num (-2))
     (Or.inr (Or.inr ⟨-2, by norm_num, rfl⟩))⟩

/-- Prepending a slash produces a string that starts with a slash. -/
theorem startsSlash_slash_append (name : String) :
    startsSlash ("/" ++ name) = true := by
  have hdata : ("/" ++ name).data = '/' :: name.data := by
    cases name with
    | mk l => rfl
  simp [startsSlash, hdata]

/-- Claim C10: for a name with no leading slash, of prepends the slash
before anything else, so the call agrees with the call on the slashed name
in its result, its final server state and its setup invocations; hence every
registry key created through of has a path component beginning with a
slash. -/
theorem c10_of_slash_normalization (s : DynamicServer) (name : String)
    (host : Option String) (fn : OfFn) (h : startsSlash name = false) :
    s.of name host fn = s.of ("/" ++ name) host fn := by
  unfold DynamicServer.of
  rw [h, startsSlash_slash_append]
  simp

/-- Witness instantiating c10_of_slash_normalization on the name x. -/
theorem c10_witness :
    emptyServer.of "x" none OfFn.noFn = emptyServer.of ("/" ++ "x") none OfFn.noFn :=
  c10_of_slash_normalization emptyServer "x" none OfFn.noFn rfl

/-- Computation of initializeNamespace when a setup registration resolves
and its callback returns exactly false: the freshly registered entity is
deleted again, so the server comes back unchanged, the result is none and
the log records the one rejecting invocation. -/
theorem initializeNamespace_rejected (s : DynamicServer) (name : String)
    (host : Option String) (auto : Bool) (f : SetupFn) (m : MatchRes)
    (h : lookupKey s.nsps (fullNamespaceName name host) = none)
    (hres : resolveSetup s (fullNamespaceName name host) = some (f, m))
    (hrej : f { createdEntity s name host auto with setupDone := -1 } m
      = JSRet.jfalse) :
    s.initializeNamespace name host auto =
      (none, s, [(fullNamespaceName name host, JSRet.jfalse)]) := by
  unfold DynamicServer.initializeNamespace
  simp only [hres, Option.isNone_some, Bool.and_false, and_false, if_false,
    Bool.false_eq_true, setKey_setKey, hrej, if_pos]
  rw [setKey_absent _ _ _ h, deleteKey_append_self _ _ _ h]

/-- Claim C7: a creation-time setup callback that returns exactly false
makes initializeNamespace remove the new entity again (the registry and the
whole server state are as before the call) and return none; and a client
connect whose namespace lookup or creation refuses sends exactly one ERROR
packet (type 4) naming the requested namespace, with the rest of the client
state, hence the connection, untouched. -/
theorem c7_rejection_rollback_and_error_packet :
    (∀ (s : DynamicServer) (name : String) (host : Option String) (auto : Bool)
        (f : SetupFn) (m : MatchRes),
      lookupKey s.nsps (fullNamespaceName name host) = none →
      resolveSetup s (fullNamespaceName name host) = some (f, m) →
      f { createdEntity s name host auto with setupDone := -1 } m = JSRet.jfalse →
      s.initializeNamespace name host auto =
        (none, s, [(fullNamespaceName name host, JSRet.jfalse)])) ∧
    (∀ (ofok : String → Bool) (c : DynamicClient) (name : String),
      ofok name = false →
      DynamicClient.connect ofok c name =
        { c with packets := c.packets ++ [⟨4, name, "Invalid namespace"⟩] }) := by
  constructor
  · intro s name host auto f m h hres hrej
    exact initializeNamespace_rejected s name host auto f m h hres hrej
  · intro ofok c name hok
    unfold DynamicClient.connect
    simp [hok]

/-- A setup callback that always rejects. -/
def rejectFn : SetupFn := fun _ _ => JSRet.jfalse

/-- A setup callback that always accepts with true. -/
def acceptFn : SetupFn := fun _ _ => JSRet.jtrue

/-- A setup callback that accepts by returning undefined. -/
def undefFn : SetupFn := fun _ _ => JSRet.jundef

/-- The empty server with one exact-name registration for /x that rejects. -/
def serverRej : DynamicServer :=
  { emptyServer with _namepaceNames := updMap emptyServer._namepaceNames "/x" rejectFn }

/-- Witness instantiating c7_rejection_rollback_and_error_packet on a
concrete rejecting registration and a concrete refused connect. -/
theorem c7_witness :
    serverRej.initializeNamespace "/x" none true =
      (none, serverRej, [("/x", JSRet.jfalse)]) ∧
    DynamicClient.connect (fun _ => false) initClient "/x" =
      { initClient with packets := [⟨4, "/x", "Invalid namespace"⟩] } :=
  ⟨c7_rejection_rollback_and_error_packet.1 serverRej "/x" none true rejectFn
      ⟨"/x", 0, "/x"⟩ rfl rfl rfl,
    c7_rejection_rollback_and_error_packet.2 (fun _ => false) initClient "/x" rfl⟩

/-- Entries whose pattern does not match the name are skipped by the
backwards pattern scan. -/
theorem scanPatternsRev_skip (l1 l2 : List PatternEntry) (full : String)
    (h : ∀ e ∈ l1, matchPattern e.pattern full = none) :
    scanPatternsRev (l1 ++ l2) full = scanPatternsRev l2 full := by
  induction l1 with
  | nil => rfl
  | cons e rest ih =>
    have he := h e (by simp)
    simp only [List.cons_append, scanPatternsRev, he]
    exact ih (fun x hx => h x (by simp [hx]))

/-- Claim C2: when initializeNamespace resolves a setup registration, an
exact-name registration for the fully qualified identity is chosen no matter
what the pattern list holds; and when the name table has no entry, the
matching pattern entry after which no later-registered entry matches is the
one chosen (the scan walks the pattern list from the most recently
registered entry backwards). -/
theorem c2_setup_resolution_precedence :
    (∀ (s : DynamicServer) (full : String) (f : SetupFn),
      s._namepaceNames full = some f →
      resolveSetup s full = some (f, ⟨full, 0, full⟩)) ∧
    (∀ (s : DynamicServer) (full : String) (pre post : List PatternEntry)
        (e : PatternEntry) (m : MatchRes),
      s._namepaceNames full = none →
      s._namepacePatterns = pre ++ e :: post →
      matchPattern e.pattern full = some m →
      (∀ e2 ∈ post, matchPattern e2.pattern full = none) →
      resolveSetup s full = some (e.setup, m)) := by
  constructor
  · intro s full f h
    simp [resolveSetup, h]
  · intro s full pre post e m hn hp hm hpost
    simp only [resolveSetup, hn, hp, List.reverse_append, List.reverse_cons,
      List.append_assoc]
    rw [scanPatternsRev_skip post.reverse _ full
      (fun x hx => hpost x (List.mem_reverse.mp hx))]
    simp [scanPatternsRev, hm]

/-- A pattern entry accepting every name with fnA-style callback, registered
first. -/
def entryEarly : PatternEntry := PatternEntry.mk (Pat.re reAll) undefFn

/-- A pattern entry accepting every name, registered last. -/
def entryLate : PatternEntry := PatternEntry.mk (Pat.re reAll) acceptFn

/-- A server holding one exact registration for /a and two pattern
registrations that both match everything. -/
def serverC2 : DynamicServer :=
  { emptyServer with
      _namepaceNames := updMap emptyServer._namepaceNames "/a" rejectFn
      _namepacePatterns := [entryEarly, entryLate] }

/-- Witness instantiating c2_setup_resolution_precedence: the exact name
wins for /a although both patterns match it, and the later-registered
pattern wins for /b. -/
theorem c2_witness :
    resolveSetup serverC2 "/a" = some (rejectFn, ⟨"/a", 0, "/a"⟩) ∧
    resolveSetup serverC2 "/b" = some (entryLate.setup, ⟨"/b", 0, "/b"⟩) :=
  ⟨c2_setup_resolution_precedence.1 serverC2 "/a" rejectFn rfl,
    c2_setup_resolution_precedence.2 serverC2 "/b" [entryEarly] [] entryLate
      ⟨"/b", 0, "/b"⟩ rfl rfl rfl (fun x hx => absurd hx (List.not_mem_nil x))⟩


/-- The server s with its registry replaced, all other fields kept. -/
def withNsps (s : DynamicServer) (l : List (String × DynamicNamespace)) :
    DynamicServer :=
  { s with nsps := l }

/-- The entity constructed by initializeNamespace as it looks while the setup
callback runs: sentinel at -1. -/
def inProgressEntity (s : DynamicServer) (name : String) (host : Option String)
    (auto : Bool) : DynamicNamespace :=
  { createdEntity s name host auto with setupDone := -1 }

/-- The entity constructed by initializeNamespace after an accepted setup:
sentinel at 1. -/
def doneEntity (s : DynamicServer) (name : String) (host : Option String)
    (auto : Bool) : DynamicNamespace :=
  { createdEntity s name host auto with setupDone := 1 }

/-- Computation of initializeNamespace when no registration resolves: an
automatic request yields none without touching the server, a non-automatic
request registers the fresh entity unconditionally and never calls any
setup. -/
theorem initializeNamespace_noSetup (s : DynamicServer) (name : String)
    (host : Option String) (auto : Bool)
    (hres : resolveSetup s (fullNamespaceName name host) = none) :
    s.initializeNamespace name host auto =
      (if auto then (none, s, [])
        else (some (createdEntity s name host auto),
          withNsps s (setKey s.nsps (fullNamespaceName name host)
            (createdEntity s name host auto)), [])) := by
  unfold DynamicServer.initializeNamespace withNsps
  by_cases ha : auto = true
  · simp [hres, ha]
  · simp [hres, ha]

/-- Computation of initializeNamespace when a registration resolves and its
callback returns anything but exactly false: the entity ends registered with
the setup sentinel at 1, and the log records the accepting invocation. -/
theorem initializeNamespace_accepted (s : DynamicServer) (name : String)
    (host : Option String) (auto : Bool) (f : SetupFn) (m : MatchRes)
    (hres : resolveSetup s (fullNamespaceName name host) = some (f, m))
    (hacc : f (inProgressEntity s name host auto) m ≠ JSRet.jfalse) :
    s.initializeNamespace name host auto =
      (some (doneEntity s name host auto),
        withNsps s (setKey s.nsps (fullNamespaceName name host)
          (doneEntity s name host auto)),
        [(fullNamespaceName name host, f (inProgressEntity s name host auto) m)]) := by
  unfold DynamicServer.initializeNamespace withNsps doneEntity
  unfold inProgressEntity at hacc ⊢
  simp only [hres, Option.isNone_some, Bool.and_false, and_false, if_false,
    Bool.false_eq_true, setKey_setKey]
  rw [if_neg hacc]

/-- Claim C3 as stated is refuted at the root namespace: on a server with no
registrations, an automatic initializeNamespace request for the root
identity satisfies the right-hand side of the claimed equivalence (the
identity is the root namespace) yet creates nothing and returns none; in
src/index.js the root is not special-cased in initializeNamespace, it exists
because the server constructor requests it non-automatically. -/
theorem c3_counterexample :
    ¬ (((emptyServer.initializeNamespace "/" none true).1.isSome = true) ↔
      ((resolveSetup emptyServer "/").isSome = true ∨ "/" = "/")) := by
  decide

/-- Claim C3, amended: for an identity with no existing registry entry,
an automatic request with no matching registration returns none and leaves
the server, hence the registry, unchanged; an entity is created and
registered exactly when a registration matches and its callback does not
return exactly false, or when no registration matches and the request is not
automatic; whenever the result is none the registry is unchanged, and a
returned entity is registered under the fully qualified identity. -/
theorem c3_creation_characterization (s : DynamicServer) (name : String)
    (host : Option String) (auto : Bool)
    (h : lookupKey s.nsps (fullNamespaceName name host) = none) :
    (auto = true → resolveSetup s (fullNamespaceName name host) = none →
      s.initializeNamespace name host auto = (none, s, [])) ∧
    ((s.initializeNamespace name host auto).1.isSome = true ↔
      ((∃ f m, resolveSetup s (fullNamespaceName name host) = some (f, m) ∧
        f (inProgressEntity s name host auto) m ≠ JSRet.jfalse) ∨
      (resolveSetup s (fullNamespaceName name host) = none ∧ auto = false))) ∧
    ((s.initializeNamespace name host auto).1 = none →
      (s.initializeNamespace name host auto).2.1.nsps = s.nsps) ∧
    (∀ nsp, (s.initializeNamespace name host auto).1 = some nsp →
      lookupKey (s.initializeNamespace name host auto).2.1.nsps
        (fullNamespaceName name host) = some nsp) := by
  rcases hres : resolveSetup s (fullNamespaceName name host) with _ | ⟨f, m⟩
  · rw [initializeNamespace_noSetup s name host auto hres]
    by_cases ha : auto = true
    · subst ha
      refine ⟨fun _ _ => by simp, by simp, by simp, by simp⟩
    · have ha' : auto = false := by
        cases auto
        · rfl
        · exact absurd rfl ha
      subst ha'
      refine ⟨fun hc _ => absurd hc (by simp), by simp [hres], by simp, ?_⟩
      intro nsp hnsp
      simp only [if_false, Bool.false_eq_true] at hnsp ⊢
      simp at hnsp
      subst hnsp
      simp [withNsps, lookupKey_setKey_self]
  · by_cases hrej : f (inProgressEntity s name host auto) m = JSRet.jfalse
    · have heq := initializeNamespace_rejected s name host auto f m h hres
        (by unfold inProgressEntity at hrej; exact hrej)
      rw [heq]
      refine ⟨fun _ hc => by simp at hc, ?_, fun _ => rfl,
        fun nsp hnsp => by simp at hnsp⟩
      constructor
      · intro hc
        simp at hc
      · rintro (⟨f2, m2, hr2, hne2⟩ | ⟨hr2, _⟩)
        · injection hr2 with hr2
          have hf : f2 = f := congrArg Prod.fst hr2.symm
          have hm : m2 = m := congrArg Prod.snd hr2.symm
          subst hf
          subst hm
          exact absurd hrej hne2
        · exact absurd hr2 (by simp)
    · rw [initializeNamespace_accepted s name host auto f m hres hrej]
      refine ⟨fun _ hc => by simp at hc, ?_,
        fun hc => by simp at hc, fun nsp hnsp => ?_⟩
      · simp only [Option.isSome_some, true_iff]
        exact Or.inl ⟨f, m, rfl, hrej⟩
      · simp only at hnsp
        injection hnsp with hnsp
        subst hnsp
        simp [withNsps, lookupKey_setKey_self]

/-- Witness instantiating c3_creation_characterization on the empty server
at the root identity with an automatic request. -/
theorem c3_witness :
    emptyServer.initializeNamespace "/" none true = (none, emptyServer, []) :=
  (c3_creation_characterization emptyServer "/" none true rfl).1 rfl rfl

/-- A valid non-root connect issued while nothing is joined is appended to
the connect buffer. -/
theorem connect_buffers (ofok : String → Bool) (buf : List String) (n : String)
    (h1 : ofok n = true) (h2 : n ≠ "/") :
    DynamicClient.connect ofok ⟨[], buf, []⟩ n = ⟨[], buf ++ [n], []⟩ := by
  unfold DynamicClient.connect
  simp [h1, h2]

/-- Processing a sequence of valid non-root requests before the root join
only extends the buffer, in request order. -/
theorem connect_buffer_phase (ofok : String → Bool) (pre : List String)
    (hvalid : ∀ n ∈ pre, ofok n = true) (hnr : ∀ n ∈ pre, n ≠ "/")
    (buf : List String) :
    pre.foldl (DynamicClient.connect ofok) ⟨[], buf, []⟩ =
      ⟨[], buf ++ pre, []⟩ := by
  induction pre generalizing buf with
  | nil => simp
  | cons n rest ih =>
    simp only [List.foldl_cons]
    rw [connect_buffers ofok buf n (hvalid n (by simp)) (hnr n (by simp))]
    rw [ih (fun x hx => hvalid x (by simp [hx])) (fun x hx => hnr x (by simp [hx]))]
    simp

/-- Replaying a list of valid names appends exactly those names, in order,
to the joined list. -/
theorem replay_appends (ofok : String → Bool) (l : List String)
    (hvalid : ∀ n ∈ l, ofok n = true) (c : DynamicClient) :
    l.foldl (replayStep ofok) c = { c with nsps := c.nsps ++ l } := by
  induction l generalizing c with
  | nil => simp
  | cons n rest ih =>
    simp only [List.foldl_cons]
    have hstep : replayStep ofok c n = { c with nsps := c.nsps ++ [n] } := by
      unfold replayStep
      simp [hvalid n (by simp)]
    rw [hstep, ih (fun x hx => hvalid x (by simp [hx]))]
    simp

/-- A replay fold only ever appends to the joined list. -/
theorem replay_nsps_suffix (ofok : String → Bool) (l : List String)
    (c : DynamicClient) :
    ∃ t, (l.foldl (replayStep ofok) c).nsps = c.nsps ++ t := by
  induction l generalizing c with
  | nil => exact ⟨[], by simp⟩
  | cons n rest ih =>
    simp only [List.foldl_cons]
    rcases ih (replayStep ofok c n) with ⟨t, ht⟩
    by_cases h1 : ofok n = false
    · refine ⟨t, ?_⟩
      rw [ht]
      unfold replayStep
      simp [h1]
    · refine ⟨[n] ++ t, ?_⟩
      rw [ht]
      unfold replayStep
      simp [h1]

/-- The joined list is empty or starts with the root namespace, and connect
preserves this. -/
theorem connect_head_root (ofok : String → Bool) (c : DynamicClient) (n : String)
    (hc : c.nsps = [] ∨ c.nsps.head? = some "/") :
    (DynamicClient.connect ofok c n).nsps = [] ∨
      (DynamicClient.connect ofok c n).nsps.head? = some "/" := by
  simp only [DynamicClient.connect]
  split_ifs with h1 h2 h3
  · simpa using hc
  · simpa using hc
  · obtain ⟨hn, hb⟩ := h3
    subst hn
    right
    rcases replay_nsps_suffix ofok c.connectBuffer
      { c with nsps := c.nsps ++ ["/"] } with ⟨t, ht⟩
    have hrec : ({ c.connectBuffer.foldl (replayStep ofok)
        { c with nsps := c.nsps ++ ["/"] } with connectBuffer := ([] : List String)}).nsps
        = (c.connectBuffer.foldl (replayStep ofok)
          { c with nsps := c.nsps ++ ["/"] }).nsps := rfl
    rw [hrec, ht]
    rcases hc with hnil | hhd
    · rw [hnil]
      simp
    · cases hcn : c.nsps with
      | nil =>
        rw [hcn] at hhd
        simp at hhd
      | cons a rest =>
        rw [hcn] at hhd
        simp at hhd
        simp [hcn, hhd]
  · right
    have hgoal : (({ c with nsps := c.nsps ++ [n] }) : DynamicClient).nsps
        = c.nsps ++ [n] := rfl
    rw [hgoal]
    rcases hc with hnil | hhd
    · have hn : n = "/" := by
        by_contra hn
        exact h2 ⟨hn, by rw [hnil]; decide⟩
      subst hn
      rw [hnil]
      simp
    · cases hcn : c.nsps with
      | nil =>
        rw [hcn] at hhd
        simp at hhd
      | cons a rest =>
        rw [hcn] at hhd
        simp at hhd
        simp [hcn, hhd]

/-- Claim C5: valid non-root join requests issued before the root join are
buffered and, the moment the root join completes, replayed in their original
FIFO order (the final joined list is the root followed by the buffered names
in request order, with an empty buffer and no error packets); moreover after
any request sequence whatsoever the joined list is empty or begins with the
root namespace, so root membership is established before any non-root
membership. -/
theorem c5_root_first_fifo_replay :
    (∀ (ofok : String → Bool) (pre : List String),
      (∀ n ∈ pre, ofok n = true) → (∀ n ∈ pre, n ≠ "/") → ofok "/" = true →
      (pre ++ ["/"]).foldl (DynamicClient.connect ofok) initClient =
        { nsps := "/" :: pre, connectBuffer := [], packets := [] }) ∧
    (∀ (ofok : String → Bool) (reqs : List String),
      (reqs.foldl (DynamicClient.connect ofok) initClient).nsps = [] ∨
      (reqs.foldl (DynamicClient.connect ofok) initClient).nsps.head? = some "/") := by
  constructor
  · intro ofok pre hvalid hnr hroot
    rw [List.foldl_append]
    have hbuf : pre.foldl (DynamicClient.connect ofok) initClient =
        ⟨[], pre, []⟩ := by
      have := connect_buffer_phase ofok pre hvalid hnr []
      simpa [initClient] using this
    rw [hbuf]
    simp only [List.foldl_cons, List.foldl_nil]
    simp only [DynamicClient.connect]
    rw [if_neg (by simp [hroot])]
    rw [if_neg (by simp)]
    cases hpre : pre with
    | nil => simp
    | cons a rest =>
      rw [if_pos ⟨trivial, by simp⟩]
      rw [replay_appends ofok (a :: rest) (by rw [← hpre]; exact hvalid)]
      simp
  · intro ofok reqs
    have hgen : ∀ (l : List String) (c : DynamicClient),
        (c.nsps = [] ∨ c.nsps.head? = some "/") →
        ((l.foldl (DynamicClient.connect ofok) c).nsps = [] ∨
          (l.foldl (DynamicClient.connect ofok) c).nsps.head? = some "/") := by
      intro l
      induction l with
      | nil =>
        intro c hc
        simpa using hc
      | cons n rest ih =>
        intro c hc
        simp only [List.foldl_cons]
        exact ih _ (connect_head_root ofok c n hc)
    exact hgen reqs initClient (Or.inl rfl)

/-- Witness instantiating c5_root_first_fifo_replay: two buffered requests
replayed after the root join, and the head invariant on a singleton run. -/
theorem c5_witness :
    ((["/a", "/b"] ++ ["/"]).foldl (DynamicClient.connect (fun _ => true)) initClient =
      { nsps := "/" :: ["/a", "/b"], connectBuffer := [], packets := [] }) ∧
    (((["/"] : List String).foldl (DynamicClient.connect (fun _ => true))
        initClient).nsps = [] ∨
      ((["/"] : List String).foldl (DynamicClient.connect (fun _ => true))
        initClient).nsps.head? = some "/") :=
  ⟨c5_root_first_fifo_replay.1 (fun _ => true) ["/a", "/b"]
      (fun _ _ => rfl) (by decide) rfl,
    c5_root_first_fifo_replay.2 (fun _ => true) ["/"]⟩

/-- The log entries of an operation that concern one fully qualified
identity. -/
def logAt (log : Log) (k : String) : Log :=
  log.filter (fun e => e.1 == k)

theorem logAt_nil (k : String) : logAt [] k = [] := rfl

theorem logAt_append (l1 l2 : Log) (k : String) :
    logAt (l1 ++ l2) k = logAt l1 k ++ logAt l2 k := by
  simp [logAt]

theorem lookupKey_eq_none_iff {α : Type} (l : List (String × α)) (k : String) :
    lookupKey l k = none ↔ k ∉ l.map Prod.fst := by
  induction l with
  | nil => simp [lookupKey]
  | cons hd tl ih =>
    obtain ⟨j, v⟩ := hd
    by_cases hj : j = k
    · subst hj
      simp [lookupKey]
    · simp only [lookupKey, hj, if_false, List.map_cons, List.mem_cons, not_or, ih]
      constructor
      · intro h
        exact ⟨fun hkj => hj hkj.symm, h⟩
      · intro h
        exact h.2

theorem logAt_cons_ne (j : String) (r : JSRet) (rest : Log) (k : String)
    (hj : ¬ j = k) : logAt ((j, r) :: rest) k = logAt rest k := by
  simp [logAt, List.filter_cons, hj]

theorem logAt_cons_eq (k : String) (r : JSRet) (rest : Log) :
    logAt ((k, r) :: rest) k = (k, r) :: logAt rest k := by
  simp [logAt, List.filter_cons]

/-- The entity as the retroactive loop and initializeNamespace pass it to
the setup callback: sentinel at -1. -/
def inProgressOf (nsp : DynamicNamespace) : DynamicNamespace :=
  { nsp with setupDone := -1 }

/-- The entity after a setup invocation in the retroactive loop: sentinel
back to 0 on a rejecting return, 1 otherwise. -/
def afterSetup (nsp : DynamicNamespace) (r : JSRet) : DynamicNamespace :=
  { nsp with setupDone := if r = JSRet.jfalse then 0 else 1 }

/-- The retroactive loop leaves identities it does not hold untouched and
logs nothing for them. -/
theorem setupLoop_absent (pattern : Pat) (fn : SetupFn)
    (l : List (String × DynamicNamespace)) (k : String)
    (hk : k ∉ l.map Prod.fst) :
    lookupKey (setupLoop pattern fn l).1 k = none ∧
      logAt (setupLoop pattern fn l).2 k = [] := by
  induction l with
  | nil => simp [setupLoop, lookupKey, logAt]
  | cons hd tl ih =>
    obtain ⟨j, nsp⟩ := hd
    have hj : ¬ (j = k) := by
      intro hjk
      exact hk (by simp [hjk])
    have hk2 : k ∉ tl.map Prod.fst := by
      intro hmem
      exact hk (by simp [hmem])
    obtain ⟨ih1, ih2⟩ := ih hk2
    simp only [setupLoop]
    by_cases hd0 : nsp.setupDone = 0
    · rw [if_pos hd0]
      cases hm : matchPattern pattern j with
      | some m =>
        refine ⟨by simp [lookupKey, hj, ih1], ?_⟩
        rw [logAt_cons_ne j _ _ k hj, ih2]
      | none =>
        refine ⟨by simp [lookupKey, hj, ih1], ih2⟩
    · rw [if_neg hd0]
      refine ⟨by simp [lookupKey, hj, ih1], ih2⟩

/-- The retroactive loop on an entity whose sentinel is 0 and whose key
matches: the callback runs once on the in-progress entity and the sentinel
moves to 0 or 1 according to the returned value; the entity stays
registered. -/
theorem setupLoop_invoke (pattern : Pat) (fn : SetupFn)
    (l : List (String × DynamicNamespace)) (k : String) (nsp : DynamicNamespace)
    (m : MatchRes) (hnd : (l.map Prod.fst).Nodup)
    (hk : lookupKey l k = some nsp) (hd0 : nsp.setupDone = 0)
    (hm : matchPattern pattern k = some m) :
    lookupKey (setupLoop pattern fn l).1 k =
      some (afterSetup nsp (fn (inProgressOf nsp) m)) ∧
    logAt (setupLoop pattern fn l).2 k = [(k, fn (inProgressOf nsp) m)] := by
  induction l with
  | nil => simp [lookupKey] at hk
  | cons hd tl ih =>
    obtain ⟨j, nsp0⟩ := hd
    simp only [List.map_cons, List.nodup_cons] at hnd
    by_cases hj : j = k
    · subst hj
      simp only [lookupKey, if_pos rfl] at hk
      injection hk with hk
      subst hk
      have habs := setupLoop_absent pattern fn tl j hnd.1
      simp only [setupLoop]
      rw [if_pos hd0, hm]
      constructor
      · simp only [lookupKey, if_pos rfl]
        rfl
      · rw [logAt_cons_eq, habs.2]
        rfl
    · have hk2 : lookupKey tl k = some nsp := by
        simpa [lookupKey, hj] using hk
      obtain ⟨ih1, ih2⟩ := ih hnd.2 hk2
      simp only [setupLoop]
      by_cases hj0 : nsp0.setupDone = 0
      · rw [if_pos hj0]
        cases hm0 : matchPattern pattern j with
        | some m0 =>
          refine ⟨by simp [lookupKey, hj, ih1], ?_⟩
          rw [logAt_cons_ne j _ _ k hj, ih2]
        | none =>
          refine ⟨by simp [lookupKey, hj, ih1], ih2⟩
      · rw [if_neg hj0]
        refine ⟨by simp [lookupKey, hj, ih1], ih2⟩

/-- The retroactive loop on an entity whose sentinel is not 0 or whose key
does not match: nothing is invoked and the entity is untouched. -/
theorem setupLoop_untouched (pattern : Pat) (fn : SetupFn)
    (l : List (String × DynamicNamespace)) (k : String) (nsp : DynamicNamespace)
    (hnd : (l.map Prod.fst).Nodup) (hk : lookupKey l k = some nsp)
    (hskip : nsp.setupDone ≠ 0 ∨ matchPattern pattern k = none) :
    lookupKey (setupLoop pattern fn l).1 k = some nsp ∧
      logAt (setupLoop pattern fn l).2 k = [] := by
  induction l with
  | nil => simp [lookupKey] at hk
  | cons hd tl ih =>
    obtain ⟨j, nsp0⟩ := hd
    simp only [List.map_cons, List.nodup_cons] at hnd
    by_cases hj : j = k
    · subst hj
      simp only [lookupKey, if_pos rfl] at hk
      injection hk with hk
      subst hk
      have habs := setupLoop_absent pattern fn tl j hnd.1
      simp only [setupLoop]
      rcases hskip with hd0 | hm
      · rw [if_neg hd0]
        refine ⟨by simp [lookupKey], habs.2⟩
      · by_cases hd0 : nsp0.setupDone = 0
        · rw [if_pos hd0, hm]
          refine ⟨by simp [lookupKey], habs.2⟩
        · rw [if_neg hd0]
          refine ⟨by simp [lookupKey], habs.2⟩
    · have hk2 : lookupKey tl k = some nsp := by
        simpa [lookupKey, hj] using hk
      obtain ⟨ih1, ih2⟩ := ih hnd.2 hk2
      simp only [setupLoop]
      by_cases hj0 : nsp0.setupDone = 0
      · rw [if_pos hj0]
        cases hm0 : matchPattern pattern j with
        | some m0 =>
          refine ⟨by simp [lookupKey, hj, ih1], ?_⟩
          rw [logAt_cons_ne j _ _ k hj, ih2]
        | none =>
          refine ⟨by simp [lookupKey, hj, ih1], ih2⟩
      · rw [if_neg hj0]
        refine ⟨by simp [lookupKey, hj, ih1], ih2⟩

/-- setupNamespace only changes the registration tables before running the
retroactive loop, so its registry and its log are those of the loop over the
old registry. -/
theorem setupNamespace_parts (s : DynamicServer) (nameArg : PatArg) (fn : SetupFn) :
    (s.setupNamespace nameArg fn).1.nsps =
      (setupLoop (makePattern nameArg) fn s.nsps).1 ∧
    (s.setupNamespace nameArg fn).2 =
      (setupLoop (makePattern nameArg) fn s.nsps).2 := by
  unfold DynamicServer.setupNamespace
  cases hmp : makePattern nameArg with
  | str p => simp
  | re f => simp

/-- A server holding one not-yet-set-up entity at /x and no registrations. -/
def serverC8 : DynamicServer :=
  { emptyServer with nsps := [("/x", newNamespace "/x" none)] }

/-- Claim C8 as stated is refuted on the REJECTED state: after a retroactive
setup registration for /x whose callback returns false, the entity sits in
the registry with its sentinel back at 0, the constructor value for
NOT_STARTED, and a second registration for the same name invokes setup on it
again (its loop log is nonempty) — which the claimed terminal REJECTED state
would rule out, since registrations apply only to NOT_STARTED entities. -/
theorem c8_counterexample :
    ((serverC8.setupNamespace (PatArg.str "/x") rejectFn).1.nsps.map
      (fun e => e.2.setupDone)) = [0] ∧
    (newNamespace "/x" none).setupDone = 0 ∧
    ((serverC8.setupNamespace (PatArg.str "/x") rejectFn).1.setupNamespace
      (PatArg.str "/x") acceptFn).2 ≠ [] := by
  decide

/-- Claim C8, amended: a new registration is immediately applied to exactly
those existing entities whose fully qualified identity matches and whose
setup sentinel is 0 (not started): their callback runs once on the entity
with the sentinel at -1 (in progress) and the sentinel then becomes 1 on
acceptance or goes back to 0 (the not-started value, there is no distinct
REJECTED state) on a false return; in both outcomes the entity remains in
the registry, and entities that do not match or are already set up are
untouched with nothing logged. -/
theorem c8_retroactive_setup_behavior (s : DynamicServer) (nameArg : PatArg)
    (fn : SetupFn) (k : String) (nsp : DynamicNamespace)
    (hnd : (s.nsps.map Prod.fst).Nodup)
    (hk : lookupKey s.nsps k = some nsp) :
    (∀ m, nsp.setupDone = 0 → matchPattern (makePattern nameArg) k = some m →
      lookupKey (s.setupNamespace nameArg fn).1.nsps k =
        some (afterSetup nsp (fn (inProgressOf nsp) m)) ∧
      logAt (s.setupNamespace nameArg fn).2 k = [(k, fn (inProgressOf nsp) m)]) ∧
    ((nsp.setupDone ≠ 0 ∨ matchPattern (makePattern nameArg) k = none) →
      lookupKey (s.setupNamespace nameArg fn).1.nsps k = some nsp ∧
      logAt (s.setupNamespace nameArg fn).2 k = []) := by
  obtain ⟨h1, h2⟩ := setupNamespace_parts s nameArg fn
  rw [h1, h2]
  exact ⟨fun m hd0 hm => setupLoop_invoke _ fn s.nsps k nsp m hnd hk hd0 hm,
    fun hskip => setupLoop_untouched _ fn s.nsps k nsp hnd hk hskip⟩

/-- Witness instantiating c8_retroactive_setup_behavior on the concrete
rejecting registration for /x: the entity stays registered with its sentinel
back at 0 and the loop logged the one rejecting invocation. -/
theorem c8_witness :
    lookupKey (serverC8.setupNamespace (PatArg.str "/x") rejectFn).1.nsps "/x" =
      some (afterSetup (newNamespace "/x" none) JSRet.jfalse) ∧
    logAt (serverC8.setupNamespace (PatArg.str "/x") rejectFn).2 "/x" =
      [("/x", JSRet.jfalse)] :=
  (c8_retroactive_setup_behavior serverC8 (PatArg.str "/x") rejectFn "/x"
    (newNamespace "/x" none) (by decide) rfl).1 ⟨"/x", 0, "/x"⟩ rfl rfl

/-- The world after clearTimeout on the remembered handle: the handle
forgotten and the timer removed from the runtime queue (the recorded time is
not nulled at this point, matching the source). -/
def clearedWorld (w : World) (h : Nat) : World :=
  { w with
      server := { w.server with _cleanupTimer := none }
      pendingTimers := w.pendingTimers.erase h }

/-- The world after setTimeout: a fresh timer is queued, remembered together
with the unpadded cleanup time, and the identifier counter advances. -/
def armedWorld (w : World) (cleanupTime : JNum) : World :=
  { w with
      server := { w.server with
          _cleanupTimer := some w.nextTimerId
          _cleanupTime := some cleanupTime }
      pendingTimers := w.pendingTimers ++ [w.nextTimerId]
      nextTimerId := w.nextTimerId + 1 }

/-- requestCleanupAfter with a coerced delay that is not below Infinity is a
no-op. -/
theorem requestCleanupAfter_noop (w : World) (d : JNum) (now : ℤ)
    (hguard : jlt (jmax (JNum.num 0) (jor0 d)) JNum.inf = false) :
    requestCleanupAfter w d now = w := by
  simp [requestCleanupAfter, hguard]

/-- requestCleanupAfter with a finite coerced delay and no pending timer
arms a fresh timer at the computed cleanup time. -/
theorem requestCleanupAfter_arm (w : World) (d : JNum) (now : ℤ)
    (hguard : jlt (jmax (JNum.num 0) (jor0 d)) JNum.inf = true)
    (ht : w.server._cleanupTimer = none) :
    requestCleanupAfter w d now =
      armedWorld w (jadd (jmax (JNum.num 0) (jor0 d)) (JNum.num now)) := by
  simp [requestCleanupAfter, hguard, ht, armedWorld]

/-- requestCleanupAfter targeting a strictly earlier cleanup time than the
recorded one clears the pending timer and arms a fresh one. -/
theorem requestCleanupAfter_rearm_eq (w : World) (d : JNum) (now : ℤ) (h0 : Nat)
    (hguard : jlt (jmax (JNum.num 0) (jor0 d)) JNum.inf = true)
    (ht : w.server._cleanupTimer = some h0)
    (hcl : jlt (jadd (jmax (JNum.num 0) (jor0 d)) (JNum.num now))
      ((w.server._cleanupTime).getD (JNum.num 0)) = true) :
    requestCleanupAfter w d now =
      armedWorld (clearedWorld w h0)
        (jadd (jmax (JNum.num 0) (jor0 d)) (JNum.num now)) := by
  simp [requestCleanupAfter, hguard, ht, hcl, armedWorld, clearedWorld]

/-- requestCleanupAfter with a pending timer whose recorded time is not
later than the computed cleanup time leaves the world unchanged. -/
theorem requestCleanupAfter_keep (w : World) (d : JNum) (now : ℤ) (h0 : Nat)
    (hguard : jlt (jmax (JNum.num 0) (jor0 d)) JNum.inf = true)
    (ht : w.server._cleanupTimer = some h0)
    (hcl : jlt (jadd (jmax (JNum.num 0) (jor0 d)) (JNum.num now))
      ((w.server._cleanupTime).getD (JNum.num 0)) = false) :
    requestCleanupAfter w d now = w := by
  simp [requestCleanupAfter, hguard, ht, hcl]

/-- requestCleanupAfter preserves the scheduler invariant. -/
theorem requestCleanupAfter_inv (w : World) (d : JNum) (now : ℤ)
    (hw : SchedInv w) : SchedInv (requestCleanupAfter w d now) := by
  obtain ⟨hq, hfresh⟩ := hw
  by_cases hguard : jlt (jmax (JNum.num 0) (jor0 d)) JNum.inf = true
  · cases ht : w.server._cleanupTimer with
    | none =>
      have hq0 : w.pendingTimers = [] := by
        rw [ht] at hq
        exact hq
      rw [requestCleanupAfter_arm w d now hguard ht]
      refine ⟨?_, ?_⟩
      · show w.pendingTimers ++ [w.nextTimerId] = [w.nextTimerId]
        rw [hq0]
        rfl
      · show ∀ h, (some w.nextTimerId : Option Nat) = some h → h < w.nextTimerId + 1
        intro h hh
        injection hh with hh
        omega
    | some h0 =>
      have hq0 : w.pendingTimers = [h0] := by
        rw [ht] at hq
        exact hq
      by_cases hcl : jlt (jadd (jmax (JNum.num 0) (jor0 d)) (JNum.num now))
          ((w.server._cleanupTime).getD (JNum.num 0)) = true
      · rw [requestCleanupAfter_rearm_eq w d now h0 hguard ht hcl]
        refine ⟨?_, ?_⟩
        · show w.pendingTimers.erase h0 ++ [w.nextTimerId] = [w.nextTimerId]
          rw [hq0]
          simp
        · show ∀ h, (some w.nextTimerId : Option Nat) = some h → h < w.nextTimerId + 1
          intro h hh
          injection hh with hh
          omega
      · rw [requestCleanupAfter_keep w d now h0 hguard ht
          (by revert hcl; cases hh : jlt (jadd (jmax (JNum.num 0) (jor0 d))
            (JNum.num now)) ((w.server._cleanupTime).getD (JNum.num 0)) <;> simp)]
        exact ⟨hq, hfresh⟩
  · rw [requestCleanupAfter_noop w d now
      (by revert hguard; cases hh : jlt (jmax (JNum.num 0) (jor0 d)) JNum.inf <;> simp)]
    exact ⟨hq, hfresh⟩

/-- A cleanup sweep preserves the scheduler invariant. -/
theorem cleanupExpiredNamespaces_inv (w : World) (now : ℤ)
    (hw : SchedInv w) : SchedInv (cleanupExpiredNamespaces w now) := by
  unfold cleanupExpiredNamespaces
  exact requestCleanupAfter_inv _ _ _ ⟨hw.1, hw.2⟩

/-- A timer firing preserves the scheduler invariant. -/
theorem fireTimer_inv (w : World) (h : Nat) (now : ℤ)
    (hw : SchedInv w) : SchedInv (fireTimer w h now) := by
  unfold fireTimer
  by_cases hmem : h ∈ w.pendingTimers
  · rw [if_pos hmem]
    apply cleanupExpiredNamespaces_inv
    obtain ⟨hq, hfresh⟩ := hw
    cases ht : w.server._cleanupTimer with
    | none =>
      rw [ht] at hq
      rw [hq] at hmem
      simp at hmem
    | some h0 =>
      have hq0 : w.pendingTimers = [h0] := by
        rw [ht] at hq
        exact hq
      have hh0 : h = h0 := by
        rw [hq0] at hmem
        simpa using hmem
      subst hh0
      refine ⟨?_, ?_⟩
      · show w.pendingTimers.erase h = []
        rw [hq0]
        simp
      · show ∀ h2, (none : Option Nat) = some h2 → h2 < w.nextTimerId
        intro h2 hh2
        exact absurd hh2 (by simp)
  · rw [if_neg hmem]
    exact hw

/-- The scheduler invariant holds along every event sequence. -/
theorem schedSteps_inv (evs : List SchedEv) (w : World) (hw : SchedInv w) :
    SchedInv (evs.foldl schedStep w) := by
  induction evs generalizing w with
  | nil => exact hw
  | cons ev rest ih =>
    simp only [List.foldl_cons]
    apply ih
    cases ev with
    | req d now => exact requestCleanupAfter_inv w d now hw
    | fire h now => exact fireTimer_inv w h now hw

/-- Re-arming to a strictly earlier deadline cancels the pending timer and
schedules a fresh one recording the new cleanup time. -/
theorem requestCleanupAfter_rearm (w : World) (d : JNum) (now : ℤ) (h0 : Nat)
    (t : JNum) (hw : SchedInv w) (ht : w.server._cleanupTimer = some h0)
    (htime : w.server._cleanupTime = some t)
    (hfin : jlt (jmax (JNum.num 0) (jor0 d)) JNum.inf = true)
    (hearlier : jlt (jadd (jmax (JNum.num 0) (jor0 d)) (JNum.num now)) t = true) :
    (requestCleanupAfter w d now).server._cleanupTimer = some w.nextTimerId ∧
    (requestCleanupAfter w d now).pendingTimers = [w.nextTimerId] ∧
    h0 ∉ (requestCleanupAfter w d now).pendingTimers ∧
    (requestCleanupAfter w d now).server._cleanupTime =
      some (jadd (jmax (JNum.num 0) (jor0 d)) (JNum.num now)) := by
  obtain ⟨hq, hfresh⟩ := hw
  have hq0 : w.pendingTimers = [h0] := by
    rw [ht] at hq
    exact hq
  have hfr : h0 < w.nextTimerId := hfresh h0 ht
  have hcl : jlt (jadd (jmax (JNum.num 0) (jor0 d)) (JNum.num now))
      ((w.server._cleanupTime).getD (JNum.num 0)) = true := by
    rw [htime]
    exact hearlier
  rw [requestCleanupAfter_rearm_eq w d now h0 hfin ht hcl]
  have hpend : (armedWorld (clearedWorld w h0)
      (jadd (jmax (JNum.num 0) (jor0 d)) (JNum.num now))).pendingTimers
      = [w.nextTimerId] := by
    show w.pendingTimers.erase h0 ++ [w.nextTimerId] = [w.nextTimerId]
    rw [hq0]
    simp
  refine ⟨rfl, hpend, ?_, rfl⟩
  rw [hpend]
  simp
  omega

/-- When every surviving registry entry has an infinite expiration, the
sweep accumulates Infinity as the earliest unexpired expiration. -/
theorem sweepFold_all_infinite (now : ℤ) (l : List (String × DynamicNamespace))
    (hall : ∀ p ∈ l, jle p.2._expiration (JNum.num now) = true ∨
      p.2._expiration = JNum.inf) (acc : List (String × DynamicNamespace)) :
    (l.foldl (sweepStep now) (acc, JNum.inf)).2 = JNum.inf := by
  induction l generalizing acc with
  | nil => rfl
  | cons p rest ih =>
    simp only [List.foldl_cons, sweepStep]
    rcases hall p (by simp) with hle | hinf
    · rw [if_pos hle]
      exact ih (fun q hq => hall q (by simp [hq])) acc
    · by_cases hle2 : jle p.2._expiration (JNum.num now) = true
      · rw [if_pos hle2]
        exact ih (fun q hq => hall q (by simp [hq])) acc
      · rw [if_neg hle2, hinf]
        exact ih (fun q hq => hall q (by simp [hq])) (acc ++ [p])

/-- A sweep from the fire context (no pending timer) that finds no surviving
entity with a finite expiration schedules nothing: the infinite
earliest-unexpired value makes the trailing requestCleanupAfter a no-op. -/
theorem sweep_no_idle_no_timer (w : World) (now : ℤ)
    (htimer : w.server._cleanupTimer = none) (hpend : w.pendingTimers = [])
    (hns : ∀ p ∈ w.server.nsps, jle p.2._expiration (JNum.num now) = true ∨
      p.2._expiration = JNum.inf) :
    (cleanupExpiredNamespaces w now).pendingTimers = [] ∧
    (cleanupExpiredNamespaces w now).server._cleanupTimer = none := by
  simp only [cleanupExpiredNamespaces]
  have hearliest := sweepFold_all_infinite now w.server.nsps hns []
  rw [hearliest]
  rw [show jsub JNum.inf (JNum.num now) = JNum.inf from rfl]
  rw [requestCleanupAfter_inf]
  exact ⟨hpend, htimer⟩

/-- Claim C6: along every sequence of requestCleanupAfter calls and timer
firings the runtime timer queue is exactly the remembered handle, so at most
one cleanup timer is live at any time; a request whose coerced finite delay
targets a strictly earlier cleanup time than the recorded one cancels the
pending timer before scheduling the replacement; and a fire-context sweep
that leaves only entities with infinite expiration schedules no timer. -/
theorem c6_single_timer_invariant :
    (∀ (w0 : World) (evs : List SchedEv), SchedInv w0 →
      SchedInv (evs.foldl schedStep w0) ∧
        (evs.foldl schedStep w0).pendingTimers.length ≤ 1) ∧
    (∀ (w : World) (d : JNum) (now : ℤ) (h0 : Nat) (t : JNum), SchedInv w →
      w.server._cleanupTimer = some h0 → w.server._cleanupTime = some t →
      jlt (jmax (JNum.num 0) (jor0 d)) JNum.inf = true →
      jlt (jadd (jmax (JNum.num 0) (jor0 d)) (JNum.num now)) t = true →
      (requestCleanupAfter w d now).server._cleanupTimer = some w.nextTimerId ∧
      (requestCleanupAfter w d now).pendingTimers = [w.nextTimerId] ∧
      h0 ∉ (requestCleanupAfter w d now).pendingTimers ∧
      (requestCleanupAfter w d now).server._cleanupTime =
        some (jadd (jmax (JNum.num 0) (jor0 d)) (JNum.num now))) ∧
    (∀ (w : World) (now : ℤ),
      w.server._cleanupTimer = none → w.pendingTimers = [] →
      (∀ p ∈ w.server.nsps, jle p.2._expiration (JNum.num now) = true ∨
        p.2._expiration = JNum.inf) →
      (cleanupExpiredNamespaces w now).pendingTimers = []) := by
  refine ⟨?_, ?_, ?_⟩
  · intro w0 evs hw0
    have hinv := schedSteps_inv evs w0 hw0
    refine ⟨hinv, ?_⟩
    rw [hinv.1]
    cases (evs.foldl schedStep w0).server._cleanupTimer <;> simp
  · intro w d now h0 t hw ht htime hfin hearlier
    exact requestCleanupAfter_rearm w d now h0 t hw ht htime hfin hearlier
  · intro w now htimer hpend hns
    exact (sweep_no_idle_no_timer w now htimer hpend hns).1

/-- A world with one registered namespace whose expiration is infinite. -/
def worldIdleFree : World :=
  { initialWorld with
      server := { emptyServer with nsps := [("/a", newNamespace "/a" none)] } }

/-- The world after one scheduling request on the initial world. -/
def worldArmed : World := requestCleanupAfter initialWorld (JNum.num 100) 0

/-- Witness instantiating c6_single_timer_invariant: one request event from
the initial world, a concrete earlier re-arm on the armed world, and a sweep
of a world whose only namespace never expires. -/
theorem c6_witness :
    (SchedInv ([SchedEv.req (JNum.num 5) 0].foldl schedStep initialWorld) ∧
      ([SchedEv.req (JNum.num 5) 0].foldl schedStep initialWorld).pendingTimers.length
        ≤ 1) ∧
    ((requestCleanupAfter worldArmed (JNum.num 1) 2).server._cleanupTimer =
        some worldArmed.nextTimerId ∧
      (requestCleanupAfter worldArmed (JNum.num 1) 2).pendingTimers =
        [worldArmed.nextTimerId] ∧
      0 ∉ (requestCleanupAfter worldArmed (JNum.num 1) 2).pendingTimers ∧
      (requestCleanupAfter worldArmed (JNum.num 1) 2).server._cleanupTime =
        some (jadd (jmax (JNum.num 0) (jor0 (JNum.num 1))) (JNum.num 2))) ∧
    (cleanupExpiredNamespaces worldIdleFree 50).pendingTimers = [] :=
  ⟨c6_single_timer_invariant.1 initialWorld [SchedEv.req (JNum.num 5) 0]
      ⟨rfl, fun h hh => by injection hh⟩,
    c6_single_timer_invariant.2.1 worldArmed (JNum.num 1) 2 0 (JNum.num 100)
      ⟨rfl, fun h hh => by injection hh with hh; subst hh; decide⟩ rfl rfl rfl rfl,
    c6_single_timer_invariant.2.2 worldIdleFree 50 rfl rfl (by decide)⟩

/-- Every entry of a log returned false. -/
def AllRej (l : Log) : Prop := ∀ e ∈ l, e.2 = JSRet.jfalse

/-- The identity k currently holds an entity whose setup completed
successfully (sentinel 1). -/
def DoneAt (s : DynamicServer) (k : String) : Prop :=
  ∃ nsp, lookupKey s.nsps k = some nsp ∧ nsp.setupDone = 1

theorem DoneAt_iff_mapDone (s : DynamicServer) (k : String) :
    DoneAt s k ↔
      (lookupKey s.nsps k).map (fun n => n.setupDone) = some 1 := by
  constructor
  · rintro ⟨nsp, hl, hd⟩
    rw [hl]
    simp [hd]
  · intro h
    cases hl : lookupKey s.nsps k with
    | none =>
      rw [hl] at h
      simp at h
    | some nsp =>
      rw [hl] at h
      simp at h
      exact ⟨nsp, hl, h⟩

theorem setupLoop_keys (pattern : Pat) (fn : SetupFn)
    (l : List (String × DynamicNamespace)) :
    (setupLoop pattern fn l).1.map Prod.fst = l.map Prod.fst := by
  induction l with
  | nil => rfl
  | cons hd tl ih =>
    obtain ⟨j, nsp⟩ := hd
    simp only [setupLoop]
    by_cases hd0 : nsp.setupDone = 0
    · rw [if_pos hd0]
      cases hm : matchPattern pattern j with
      | some m => simp [ih]
      | none => simp [ih]
    · rw [if_neg hd0]
      simp [ih]

theorem setKey_keys_present {α : Type} (l : List (String × α)) (k : String)
    (v v0 : α) (h : lookupKey l k = some v0) :
    (setKey l k v).map Prod.fst = l.map Prod.fst := by
  induction l with
  | nil => simp [lookupKey] at h
  | cons hd tl ih =>
    obtain ⟨j, w⟩ := hd
    by_cases hj : j = k
    · subst hj
      simp [setKey]
    · simp only [lookupKey, hj, if_false] at h
      simp [setKey, hj, ih h]

theorem attachHandler_keys (s : DynamicServer) (full : String) (fn : OfFn) :
    (attachHandler s full fn).nsps.map Prod.fst = s.nsps.map Prod.fst := by
  unfold attachHandler
  cases fn with
  | handler h =>
    cases hl : lookupKey s.nsps full with
    | some nsp => exact setKey_keys_present _ _ _ _ hl
    | none => rfl
  | noFn => rfl
  | isTrue => rfl

theorem attachHandler_mapDone (s : DynamicServer) (full : String) (fn : OfFn)
    (k : String) :
    (lookupKey (attachHandler s full fn).nsps k).map (fun n => n.setupDone) =
      (lookupKey s.nsps k).map (fun n => n.setupDone) := by
  unfold attachHandler
  cases fn with
  | handler h =>
    cases hl : lookupKey s.nsps full with
    | some nsp =>
      by_cases hk : k = full
      · subst hk
        rw [lookupKey_setKey_self, hl]
        rfl
      · rw [lookupKey_setKey_other _ _ _ _ hk]
    | none => rfl
  | noFn => rfl
  | isTrue => rfl

theorem attachHandler_DoneAt (s : DynamicServer) (full : String) (fn : OfFn)
    (k : String) : DoneAt (attachHandler s full fn) k ↔ DoneAt s k := by
  rw [DoneAt_iff_mapDone, DoneAt_iff_mapDone, attachHandler_mapDone]

/-- Behaviour of of when the identity is already registered: no
initialization, only the optional handler attachment. -/
theorem of_eq_found (s : DynamicServer) (name : String) (host : Option String)
    (fn : OfFn) (nsp : DynamicNamespace)
    (hl : lookupKey s.nsps
      (fullNamespaceName (if startsSlash name then name else "/" ++ name) host)
      = some nsp) :
    s.of name host fn =
      (lookupKey
        (attachHandler s
          (fullNamespaceName (if startsSlash name then name else "/" ++ name) host)
          fn).nsps
        (fullNamespaceName (if startsSlash name then name else "/" ++ name) host),
       attachHandler s
         (fullNamespaceName (if startsSlash name then name else "/" ++ name) host)
         fn,
       []) := by
  simp only [DynamicServer.of, hl]

/-- Behaviour of of when the identity is unregistered and initialization
refuses: the refusal is passed through. -/
theorem of_eq_init_none (s : DynamicServer) (name : String) (host : Option String)
    (fn : OfFn) (s2 : DynamicServer) (log2 : Log)
    (hl : lookupKey s.nsps
      (fullNamespaceName (if startsSlash name then name else "/" ++ name) host)
      = none)
    (hinit : s.initializeNamespace
        (if startsSlash name then name else "/" ++ name) host
        (decide (fn = OfFn.isTrue)) = (none, s2, log2)) :
    s.of name host fn = (none, s2, log2) := by
  simp only [DynamicServer.of, hl, hinit]

/-- Behaviour of of when the identity is unregistered and initialization
succeeds: the optional handler is attached and the registered entity
returned. -/
theorem of_eq_init_some (s : DynamicServer) (name : String) (host : Option String)
    (fn : OfFn) (nsp : DynamicNamespace) (s2 : DynamicServer) (log2 : Log)
    (hl : lookupKey s.nsps
      (fullNamespaceName (if startsSlash name then name else "/" ++ name) host)
      = none)
    (hinit : s.initializeNamespace
        (if startsSlash name then name else "/" ++ name) host
        (decide (fn = OfFn.isTrue)) = (some nsp, s2, log2)) :
    s.of name host fn =
      (lookupKey
        (attachHandler s2
          (fullNamespaceName (if startsSlash name then name else "/" ++ name) host)
          fn).nsps
        (fullNamespaceName (if startsSlash name then name else "/" ++ name) host),
       attachHandler s2
         (fullNamespaceName (if startsSlash name then name else "/" ++ name) host)
         fn,
       log2) := by
  simp only [DynamicServer.of, hl, hinit]

/-- Per-identity effect of one setupNamespace call: either nothing is
logged for the identity and its done-status is unchanged, or exactly one
invocation is logged for a previously not-done identity whose done-status
afterwards reflects the returned value. -/
theorem runOp_step_setup (s : DynamicServer) (nameArg : PatArg) (fn : SetupFn)
    (hnd : (s.nsps.map Prod.fst).Nodup) :
    ((s.setupNamespace nameArg fn).1.nsps.map Prod.fst).Nodup ∧
    ∀ k, (logAt (s.setupNamespace nameArg fn).2 k = [] ∧
        (DoneAt (s.setupNamespace nameArg fn).1 k ↔ DoneAt s k)) ∨
      (∃ r, logAt (s.setupNamespace nameArg fn).2 k = [(k, r)] ∧ ¬ DoneAt s k ∧
        (DoneAt (s.setupNamespace nameArg fn).1 k ↔ r ≠ JSRet.jfalse)) := by
  obtain ⟨hns, hlg⟩ := setupNamespace_parts s nameArg fn
  constructor
  · rw [hns, setupLoop_keys]
    exact hnd
  · intro k
    cases hl : lookupKey s.nsps k with
    | none =>
      left
      obtain ⟨h1, h2⟩ := setupLoop_absent (makePattern nameArg) fn s.nsps k
        ((lookupKey_eq_none_iff _ _).mp hl)
      rw [hlg, h2, DoneAt_iff_mapDone, DoneAt_iff_mapDone, hns, h1, hl]
      simp
    | some nsp =>
      by_cases hd0 : nsp.setupDone = 0
      · cases hm : matchPattern (makePattern nameArg) k with
        | none =>
          left
          obtain ⟨h1, h2⟩ := setupLoop_untouched (makePattern nameArg) fn s.nsps
            k nsp hnd hl (Or.inr hm)
          rw [hlg, h2, DoneAt_iff_mapDone, DoneAt_iff_mapDone, hns, h1, hl]
          simp
        | some m =>
          right
          obtain ⟨h1, h2⟩ := setupLoop_invoke (makePattern nameArg) fn s.nsps
            k nsp m hnd hl hd0 hm
          refine ⟨fn (inProgressOf nsp) m, by rw [hlg, h2], ?_, ?_⟩
          · rw [DoneAt_iff_mapDone, hl]
            simp [hd0]
          · rw [DoneAt_iff_mapDone, hns, h1]
            simp only [Option.map_some, afterSetup, Option.some_inj]
            by_cases hr : fn (inProgressOf nsp) m = JSRet.jfalse <;> simp [hr]
      · left
        obtain ⟨h1, h2⟩ := setupLoop_untouched (makePattern nameArg) fn s.nsps
          k nsp hnd hl (Or.inl hd0)
        rw [hlg, h2, DoneAt_iff_mapDone, DoneAt_iff_mapDone, hns, h1, hl]
        simp

theorem createdEntity_setupDone (s : DynamicServer) (name : String)
    (host : Option String) (auto : Bool) :
    (createdEntity s name host auto).setupDone = 0 := by
  unfold createdEntity newNamespace
  cases auto <;> rfl

theorem doneEntity_setupDone (s : DynamicServer) (name : String)
    (host : Option String) (auto : Bool) :
    (doneEntity s name host auto).setupDone = 1 := rfl

theorem keys_setKey_absent_nodup {α : Type} (l : List (String × α)) (k : String)
    (v : α) (h : lookupKey l k = none) (hnd : (l.map Prod.fst).Nodup) :
    ((setKey l k v).map Prod.fst).Nodup := by
  rw [setKey_absent _ _ _ h, List.map_append]
  simp only [List.map_cons, List.map_nil]
  apply List.Nodup.append hnd (List.nodup_singleton k)
  rw [List.disjoint_singleton]
  exact (lookupKey_eq_none_iff _ _).mp h

/-- Per-identity effect of one of call: either nothing is logged for the
identity and its done-status is unchanged, or exactly one invocation is
logged for a previously not-done identity whose done-status afterwards
reflects the returned value. -/
theorem runOp_step_of (s : DynamicServer) (name : String) (host : Option String)
    (fn : OfFn) (hnd : (s.nsps.map Prod.fst).Nodup) :
    ((s.of name host fn).2.1.nsps.map Prod.fst).Nodup ∧
    ∀ k, (logAt (s.of name host fn).2.2 k = [] ∧
        (DoneAt (s.of name host fn).2.1 k ↔ DoneAt s k)) ∨
      (∃ r, logAt (s.of name host fn).2.2 k = [(k, r)] ∧ ¬ DoneAt s k ∧
        (DoneAt (s.of name host fn).2.1 k ↔ r ≠ JSRet.jfalse)) := by
  cases hl : lookupKey s.nsps
      (fullNamespaceName (if startsSlash name then name else "/" ++ name) host) with
  | some nsp =>
    rw [of_eq_found s name host fn nsp hl]
    refine ⟨?_, fun k => Or.inl ⟨rfl, ?_⟩⟩
    · have h1 : ((attachHandler s
          (fullNamespaceName (if startsSlash name then name else "/" ++ name) host)
          fn).nsps.map Prod.fst).Nodup := by
        rw [attachHandler_keys]
        exact hnd
      exact h1
    · exact attachHandler_DoneAt s
        (fullNamespaceName (if startsSlash name then name else "/" ++ name) host)
        fn k
  | none =>
    cases hres : resolveSetup s
        (fullNamespaceName (if startsSlash name then name else "/" ++ name) host) with
    | none =>
      have hinit := initializeNamespace_noSetup s
        (if startsSlash name then name else "/" ++ name) host
        (decide (fn = OfFn.isTrue)) hres
      by_cases hauto : decide (fn = OfFn.isTrue) = true
      · have hinit2 := hinit.trans (if_pos hauto)
        rw [of_eq_init_none s name host fn s [] hl hinit2]
        exact ⟨hnd, fun k => Or.inl ⟨rfl, Iff.rfl⟩⟩
      · have hinit2 := hinit.trans (if_neg hauto)
        rw [of_eq_init_some s name host fn _ _ [] hl hinit2]
        constructor
        · have h1 : ((attachHandler
              (withNsps s (setKey s.nsps
                (fullNamespaceName (if startsSlash name then name else "/" ++ name)
                  host)
                (createdEntity s (if startsSlash name then name else "/" ++ name)
                  host (decide (fn = OfFn.isTrue)))))
              (fullNamespaceName (if startsSlash name then name else "/" ++ name)
                host)
              fn).nsps.map Prod.fst).Nodup := by
            rw [attachHandler_keys]
            show ((setKey s.nsps _ _).map Prod.fst).Nodup
            exact keys_setKey_absent_nodup s.nsps _ _ hl hnd
          exact h1
        · intro k
          left
          refine ⟨rfl, ?_⟩
          have h2 : ∀ (s2 : DynamicServer), s2 = withNsps s (setKey s.nsps
              (fullNamespaceName (if startsSlash name then name else "/" ++ name)
                host)
              (createdEntity s (if startsSlash name then name else "/" ++ name)
                host (decide (fn = OfFn.isTrue)))) →
              (DoneAt (attachHandler s2
                (fullNamespaceName (if startsSlash name then name else "/" ++ name)
                  host) fn) k ↔ DoneAt s k) := by
            intro s2 hs2
            rw [attachHandler_DoneAt, DoneAt_iff_mapDone, DoneAt_iff_mapDone, hs2]
            simp only [withNsps]
            by_cases hk : k = fullNamespaceName
                (if startsSlash name then name else "/" ++ name) host
            · subst hk
              rw [lookupKey_setKey_self, hl]
              simp [createdEntity_setupDone]
            · rw [lookupKey_setKey_other _ _ _ _ hk]
          exact h2 _ rfl
    | some val =>
      obtain ⟨f, m⟩ := val
      by_cases hrej : f (inProgressEntity s
          (if startsSlash name then name else "/" ++ name) host
          (decide (fn = OfFn.isTrue))) m = JSRet.jfalse
      · have hinit2 := initializeNamespace_rejected s
          (if startsSlash name then name else "/" ++ name) host
          (decide (fn = OfFn.isTrue)) f m hl hres hrej
        rw [of_eq_init_none s name host fn s
          [(fullNamespaceName (if startsSlash name then name else "/" ++ name) host,
            JSRet.jfalse)] hl hinit2]
        refine ⟨hnd, fun k => ?_⟩
        by_cases hk : k = fullNamespaceName
            (if startsSlash name then name else "/" ++ name) host
        · subst hk
          right
          refine ⟨JSRet.jfalse, by rw [logAt_cons_eq]; rfl, ?_, ?_⟩
          · rw [DoneAt_iff_mapDone, hl]
            simp
          · rw [DoneAt_iff_mapDone]
            show (lookupKey s.nsps
              (fullNamespaceName (if startsSlash name then name else "/" ++ name)
                host)).map (fun n => n.setupDone) = some 1 ↔
              JSRet.jfalse ≠ JSRet.jfalse
            rw [hl]
            simp
        · left
          refine ⟨by rw [logAt_cons_ne _ _ _ _ (fun hh => hk hh.symm)]; rfl, Iff.rfl⟩
      · have hinit2 := initializeNamespace_accepted s
          (if startsSlash name then name else "/" ++ name) host
          (decide (fn = OfFn.isTrue)) f m hres hrej
        rw [of_eq_init_some s name host fn _ _ _ hl hinit2]
        constructor
        · have h1 : ((attachHandler
              (withNsps s (setKey s.nsps
                (fullNamespaceName (if startsSlash name then name else "/" ++ name)
                  host)
                (doneEntity s (if startsSlash name then name else "/" ++ name)
                  host (decide (fn = OfFn.isTrue)))))
              (fullNamespaceName (if startsSlash name then name else "/" ++ name)
                host)
              fn).nsps.map Prod.fst).Nodup := by
            rw [attachHandler_keys]
            show ((setKey s.nsps _ _).map Prod.fst).Nodup
            exact keys_setKey_absent_nodup s.nsps _ _ hl hnd
          exact h1
        · intro k
          by_cases hk : k = fullNamespaceName
              (if startsSlash name then name else "/" ++ name) host
          · subst hk
            right
            refine ⟨f (inProgressEntity s
                (if startsSlash name then name else "/" ++ name) host
                (decide (fn = OfFn.isTrue))) m,
              by rw [logAt_cons_eq]; rfl, ?_, ?_⟩
            · rw [DoneAt_iff_mapDone, hl]
              simp
            · constructor
              · intro _
                exact hrej
              · intro _
                rw [attachHandler_DoneAt, DoneAt_iff_mapDone]
                simp only [withNsps]
                rw [lookupKey_setKey_self]
                simp [doneEntity_setupDone]
          · left
            refine ⟨by rw [logAt_cons_ne _ _ _ _ (fun hh => hk hh.symm)]; rfl, ?_⟩
            rw [attachHandler_DoneAt, DoneAt_iff_mapDone, DoneAt_iff_mapDone]
            simp only [withNsps]
            rw [lookupKey_setKey_other _ _ _ _ hk]

/-- Per-identity effect of one registry operation (setupNamespace or of). -/
theorem runOp_step (s : DynamicServer) (op : SrvOp)
    (hnd : (s.nsps.map Prod.fst).Nodup) :
    ((runOp s op).1.nsps.map Prod.fst).Nodup ∧
    ∀ k, (logAt (runOp s op).2 k = [] ∧ (DoneAt (runOp s op).1 k ↔ DoneAt s k)) ∨
      (∃ r, logAt (runOp s op).2 k = [(k, r)] ∧ ¬ DoneAt s k ∧
        (DoneAt (runOp s op).1 k ↔ r ≠ JSRet.jfalse)) := by
  cases op with
  | setup nameArg fn => exact runOp_step_setup s nameArg fn hnd
  | ofOp name host fn => exact runOp_step_of s name host fn hnd

/-- The invariant tying the registry to the accumulated invocation log: the
registry keys are distinct, for every identity all logged invocations except
possibly the last returned false, and for an identity that is not
successfully set up every logged invocation returned false. -/
def SetupLogInv (s : DynamicServer) (log : Log) : Prop :=
  (s.nsps.map Prod.fst).Nodup ∧
  ∀ k, AllRej (logAt log k).dropLast ∧ (¬ DoneAt s k → AllRej (logAt log k))

theorem SetupLogInv_step (s : DynamicServer) (log : Log) (op : SrvOp)
    (hinv : SetupLogInv s log) :
    SetupLogInv (runOp s op).1 (log ++ (runOp s op).2) := by
  obtain ⟨hnd, hK⟩ := hinv
  obtain ⟨hnd2, hstep⟩ := runOp_step s op hnd
  refine ⟨hnd2, fun k => ?_⟩
  obtain ⟨hdrop, hrej⟩ := hK k
  rcases hstep k with ⟨hlog0, hdone⟩ | ⟨r, hlog1, hnotdone, hdone⟩
  · rw [logAt_append, hlog0, List.append_nil]
    exact ⟨hdrop, fun hnd3 => hrej (fun hd => hnd3 (hdone.mpr hd))⟩
  · rw [logAt_append, hlog1]
    have hprev : AllRej (logAt log k) := hrej hnotdone
    constructor
    · have hdl : (logAt log k ++ [(k, r)]).dropLast = logAt log k := by
        simp
      rw [hdl]
      exact hprev
    · intro hnd3
      have hr : r = JSRet.jfalse := by
        by_contra hrr
        exact hnd3 (hdone.mpr hrr)
      intro e he
      rcases List.mem_append.mp he with h1 | h2
      · exact hprev e h1
      · have he2 : e = (k, r) := by simpa using h2
        rw [he2]
        exact hr

theorem runOps_inv (s0 : DynamicServer) (ops : List SrvOp)
    (hnd : (s0.nsps.map Prod.fst).Nodup) :
    SetupLogInv (runOps s0 ops).1 (runOps s0 ops).2 := by
  have hgen : ∀ (l : List SrvOp) (s : DynamicServer) (log : Log),
      SetupLogInv s log →
      SetupLogInv (l.foldl (fun acc op =>
          let done := runOp acc.1 op
          (done.1, acc.2 ++ done.2)) (s, log)).1
        (l.foldl (fun acc op =>
          let done := runOp acc.1 op
          (done.1, acc.2 ++ done.2)) (s, log)).2 := by
    intro l
    induction l with
    | nil =>
      intro s log h
      exact h
    | cons op rest ih =>
      intro s log h
      simp only [List.foldl_cons]
      exact ih _ _ (SetupLogInv_step s log op h)
  have hbase : SetupLogInv s0 [] := by
    refine ⟨hnd, fun k => ⟨?_, fun _ => ?_⟩⟩
    · intro e he
      simp [logAt] at he
    · intro e he
      simp [logAt] at he
  exact hgen ops s0 [] hbase

/-- The operation sequence refuting claim C4: create /x without setup, then
register a rejecting exact setup for it, then an accepting one. -/
def opsC4 : List SrvOp :=
  [SrvOp.ofOp "/x" none OfFn.noFn,
   SrvOp.setup (PatArg.str "/x") rejectFn,
   SrvOp.setup (PatArg.str "/x") acceptFn]

/-- Claim C4 as stated is refuted: over the concrete operation sequence
opsC4 the same entity at identity /x (never removed from the registry)
receives two setup invocations — the rejecting registration puts the
sentinel back to 0, so the next registration invokes setup again. -/
theorem c4_counterexample :
    ¬ ((logAt (runOps emptyServer opsC4).2 "/x").length ≤ 1) := by
  decide

/-- Claim C4, amended: along every sequence of setupNamespace and of
operations, for each fully qualified identity every setup invocation except
possibly the last returns false; hence at most one invocation per entity is
accepted, an entity whose setup completed successfully is never re-invoked,
and re-invocation happens only after a rejecting (false) return. -/
theorem c4_at_most_one_accepted_setup (s0 : DynamicServer) (ops : List SrvOp)
    (hnd : (s0.nsps.map Prod.fst).Nodup) (k : String) :
    ∀ e ∈ (logAt (runOps s0 ops).2 k).dropLast, e.2 = JSRet.jfalse :=
  ((runOps_inv s0 ops hnd).2 k).1

/-- Witness instantiating c4_at_most_one_accepted_setup on the concrete
sequence opsC4 at identity /x, whose dropped-last log holds the rejecting
invocation. -/
theorem c4_witness :
    (("/x", JSRet.jfalse) : String × JSRet).2 = JSRet.jfalse :=
  c4_at_most_one_accepted_setup emptyServer opsC4 (by decide) "/x"
    ("/x", JSRet.jfalse) (by decide)
